import Mathlib

/-!
Verification development for the flowlog profile visualizer's topology
validation and aggregation pipeline.

The Rust sources are shallowly embedded:
* `src/ops.rs` (`OpsSpec::validate_and_build`): parsing-independent
  validation of the ops.json node list and rule plan trees;
* `src/spec/dag.rs` (`DagSpec::validate_and_build`): the historical name-DAG
  validator with root resolution and DFS cycle detection;
* `src/view.rs` (`build_report_data`, `build_rule_views`): aggregation of the
  validated topology with the time and memory logs;
* the wheel-zoom handler of `src/render/html.rs`.

Modelling conventions: `u32`/`u64` become `Nat` (the embedded code performs
no arithmetic on them that could overflow: they are only compared, copied and
summed, and the summed quantities are far below 2^64 in every concrete input
considered here, so wrap-around is not modelled); `f64` becomes `ℚ` (the code
only adds, multiplies and divides metric values, so the algebra is modelled
exactly; rounding of IEEE doubles is outside the model); `BTreeMap`/`BTreeSet`
become sorted association lists / sorted duplicate-free lists built by sorted
insertion, which is how iteration order and `sort(); dedup();` normalisation
behave in the source; fallible functions return `Except String`, with the
error strings assembled exactly as the `format!` calls in the source assemble
them.
-/

/-- Association list lookup, modelling `BTreeMap::get` (keys are unique in
every map the embedded code builds, so first-match lookup agrees with map
lookup). -/
def alookup {α β : Type} [DecidableEq α] : List (α × β) → α → Option β
  | [], _ => none
  | (k, v) :: rest, a => if k = a then some v else alookup rest a

/-- Lexicographic strict order on `List Nat`, as `Ord` on `Vec<u32>` compares
(element by element, a strict prefix is smaller). -/
def lexLt : List Nat → List Nat → Bool
  | [], [] => false
  | [], _ :: _ => true
  | _ :: _, [] => false
  | a :: as, b :: bs => if a < b then true else if b < a then false else lexLt as bs

/-- Strict order on strings via the code points of their characters,
modelling Rust's byte-lexicographic `Ord` on `String` (UTF-8 byte order and
code-point order agree). -/
def strLtB (s t : String) : Bool :=
  lexLt (s.data.map Char.toNat) (t.data.map Char.toNat)

/-- Strict order on `Nat` as a Bool-valued comparator, for the generic
sort-and-deduplicate helper. -/
def natLtB (a b : Nat) : Bool := decide (a < b)

/-- Insert into a sorted duplicate-free list, dropping the element when it is
already present. `sortDedupD` below uses it to model both
`v.sort(); v.dedup();` and collecting into a `BTreeSet`, which produce the
same sorted duplicate-free enumeration of the underlying set. -/
def insSortedD {α : Type} [DecidableEq α] (lt : α → α → Bool) (x : α) : List α → List α
  | [] => [x]
  | y :: ys =>
    if x = y then y :: ys
    else if lt x y then x :: y :: ys
    else y :: insSortedD lt x ys

/-- Sort and deduplicate a list with respect to a strict comparator. -/
def sortDedupD {α : Type} [DecidableEq α] (lt : α → α → Bool) (l : List α) : List α :=
  l.foldr (insSortedD lt) []

/-- Sorted insertion for string-keyed maps, modelling `BTreeMap<String, _>`
insertion (replacing the value when the key is present). -/
def binsertStr {β : Type} : List (String × β) → String → β → List (String × β)
  | [], k, v => [(k, v)]
  | (k', v') :: rest, k, v =>
    if k = k' then (k, v) :: rest
    else if strLtB k k' then (k, v) :: (k', v') :: rest
    else (k', v') :: binsertStr rest k v

/-- ASCII whitespace test matching the characters `str::trim` strips in every
input the pipeline sees. -/
def isSpaceChar (c : Char) : Bool := c = ' ' || c = '\t' || c = '\n' || c = '\r'

/-- Model of `str::trim`: drop leading and trailing whitespace. -/
def trimStr (s : String) : String :=
  String.mk (((s.data.dropWhile isSpaceChar).reverse.dropWhile isSpaceChar).reverse)

/-- Rendering of an operator address, as `format!("{:?}", addr.0)` renders a
`Vec<u32>`. -/
def fmtAddr (a : List Nat) : String :=
  "[" ++ String.intercalate ", " (a.map toString) ++ "]"

/-- Rendering of a string with quotes, as `format!("{:?}", s)` renders a
string without escape-worthy characters. -/
def quoteStr (s : String) : String := "\"" ++ s ++ "\""

/-- Modelled from the spec: the repository declares a `diagnostics` module
(`mod diagnostics;` in `main.rs`) whose source file is not present under
`src/`. Per the spec, a fatal error carries "one message identifying the
violated invariant and the specific offending identifiers", so
`diagnostics::error_message` is modelled as returning its argument (the
descriptive message built at the `bail!` site). -/
def error_message (s : String) : String := s

/-- Modelled from the spec: `diagnostics::warn` is the missing module's
non-fatal warning channel. The spec describes it as "a channel of non-fatal
warnings … distinct from fatal errors" and asks for "an explicit accumulator
value threaded through or returned alongside the aggregation result", so the
embedding threads the list of warning messages explicitly and never fails
through it. -/
def warn_message (s : String) : String := s

/-! ## `src/ops.rs`: raw spec shapes and `OpsSpec::validate_and_build` -/

/-- `RawNode` of `src/ops.rs` (the live, parents-based schema). -/
structure RawNode where
  id : Nat
  name : String := ""
  block : Option String := none
  fingerprint : Option String := none
  tags : List String := []
  operators : List (List Nat) := []
  parents : List Nat := []
deriving DecidableEq

/-- `RawPlanNode` of `src/ops.rs`. -/
structure RawPlanNode where
  fingerprint : String
  parents : List String := []
deriving DecidableEq

/-- `RawRule` of `src/ops.rs`. -/
structure RawRule where
  text : String := ""
  plan_tree : List RawPlanNode := []
deriving DecidableEq

/-- `OpsSpec` of `src/ops.rs`. -/
structure OpsSpec where
  nodes : List RawNode := []
  rules : List RawRule := []
deriving DecidableEq

/-- `NodeSpec` of `src/ops.rs`: flattened, validated node. -/
structure NodeSpec where
  id : Nat
  label : String
  block : String
  fingerprint : Option String
  tags : List String
  parents : List Nat
  operators : List (List Nat)
deriving DecidableEq

/-- `RulePlanNodeSpec` of `src/ops.rs`. -/
structure RulePlanNodeSpec where
  children : List String
deriving DecidableEq

/-- `RuleSpec` of `src/ops.rs`. -/
structure RuleSpec where
  text : String
  root : String
  nodes : List (String × RulePlanNodeSpec)
deriving DecidableEq

/-- `ValidatedOps` of `src/ops.rs`. -/
structure ValidatedOps where
  nodes : List (Nat × NodeSpec)
  roots : List Nat
  rules : List RuleSpec
  fingerprint_to_node : List (String × Nat)
deriving DecidableEq

/-- `normalize_parents` of `src/ops.rs` at `T = u32`: sort and deduplicate. -/
def normalize_parents (ps : List Nat) : List Nat := sortDedupD natLtB ps

/-- `normalize_parents` instantiated at `T = String` (used for plan-tree
parent lists in `src/ops.rs` and for stringified parent ids in
`src/view.rs`). -/
def normalize_parents_str (ps : List String) : List String := sortDedupD strLtB ps

/-- Fingerprint normalisation of `validate_and_build` phase 1: trim, and an
empty result becomes absent. -/
def normalizeFingerprint : Option String → Option String
  | none => none
  | some s => let t := trimStr s; if t = "" then none else some t

/-- Phase 1 row normalisation: one `RawNode` to its `NodeSpec` (default
block `"other"`, trimmed fingerprint, operator set collected into a
`BTreeSet`, parents sorted and deduplicated). -/
def NodeSpec.ofRaw (raw : RawNode) : NodeSpec :=
  { id := raw.id
    label := raw.name
    block := raw.block.getD "other"
    fingerprint := normalizeFingerprint raw.fingerprint
    tags := raw.tags
    parents := normalize_parents raw.parents
    operators := sortDedupD lexLt raw.operators }

/-- Sorted insertion into the id-keyed node map (`BTreeMap<u32, NodeSpec>`);
only reached with a fresh key because phase 1 errors on duplicates. -/
def insertById (m : List (Nat × NodeSpec)) (k : Nat) (v : NodeSpec) : List (Nat × NodeSpec) :=
  match m with
  | [] => [(k, v)]
  | (k', v') :: rest =>
    if k < k' then (k, v) :: (k', v') :: rest else (k', v') :: insertById rest k v

/-- Phase 1 of `OpsSpec::validate_and_build`: build the id-keyed map,
failing on a duplicate id. -/
def build_nodes : List RawNode → List (Nat × NodeSpec) → Except String (List (Nat × NodeSpec))
  | [], acc => .ok acc
  | raw :: rest, acc =>
    if (alookup acc raw.id).isSome then
      .error (error_message ("duplicate node id in ops.json: " ++ toString raw.id))
    else
      build_nodes rest (insertById acc raw.id (NodeSpec.ofRaw raw))

/-- Phase 2a of `OpsSpec::validate_and_build`: enforce per-block fingerprint
uniqueness while recording the global fingerprint-to-node map (first claimant
wins via `entry(..).or_insert(..)`, and the node map is iterated in ascending
id order). -/
def build_fp_maps :
    List (Nat × NodeSpec) → List ((String × String) × Nat) → List (String × Nat) →
    Except String (List (String × Nat))
  | [], _, fpn => .ok fpn
  | (id, node) :: rest, fpb, fpn =>
    match node.fingerprint with
    | none => build_fp_maps rest fpb fpn
    | some fp =>
      match alookup fpb (node.block, fp) with
      | some prev =>
        .error (error_message ("fingerprint '" ++ fp ++ "' is used by multiple nodes in block '"
          ++ node.block ++ "' (" ++ toString prev ++ " and " ++ toString id ++ ")"))
      | none =>
        build_fp_maps rest (fpb ++ [((node.block, fp), id)])
          (if (alookup fpn fp).isSome then fpn else fpn ++ [(fp, id)])

/-- Phase 2b of `OpsSpec::validate_and_build`: roots are the ids whose parent
list is empty, pushed in map order and then sorted and deduplicated. -/
def compute_roots (nodes : List (Nat × NodeSpec)) : List Nat :=
  sortDedupD natLtB ((nodes.filter (fun x => x.2.parents = [])).map (·.1))

/-- Inner loop of phase 2c: check one node's parent ids against the node
map. -/
def check_parents_list (all : List (Nat × NodeSpec)) (id : Nat) :
    List Nat → Except String Unit
  | [] => .ok ()
  | pid :: ps =>
    if (alookup all pid).isSome then check_parents_list all id ps
    else .error (error_message ("node " ++ toString id ++ " references missing parent id "
      ++ toString pid))

/-- Phase 2c of `OpsSpec::validate_and_build`: every referenced parent id
must exist. -/
def check_parents_exist (all : List (Nat × NodeSpec)) :
    List (Nat × NodeSpec) → Except String Unit
  | [] => .ok ()
  | (_, node) :: rest =>
    match check_parents_list all node.id node.parents with
    | .error e => .error e
    | .ok _ => check_parents_exist all rest

/-- First plan-tree loop of phase 3: trim each fingerprint, reject empty or
globally unknown fingerprints, and record the normalised parent lists. The
duplicate check consults `nodes_map`, which this loop never fills — exactly
as in the source, where `nodes_map` is only populated by the later loops, so
the check can never fire here. -/
def build_raw_parents (text : String) (fpn : List (String × Nat)) :
    List RawPlanNode → List (String × List String) → List (String × RulePlanNodeSpec) →
    Except String (List (String × List String))
  | [], rp, _ => .ok rp
  | pn :: rest, rp, nodes_map =>
    let fp := trimStr pn.fingerprint
    if fp = "" then
      .error (error_message ("rule '" ++ text ++ "' has an empty fingerprint entry"))
    else if (alookup nodes_map fp).isSome then
      .error (error_message ("rule '" ++ text ++ "' has duplicate fingerprint '" ++ fp
        ++ "' in plan tree"))
    else if (alookup fpn fp).isNone then
      .error (error_message ("rule '" ++ text ++ "' references fingerprint '" ++ fp
        ++ "' not found in any node"))
    else
      build_raw_parents text fpn rest (binsertStr rp fp (normalize_parents_str pn.parents))
        nodes_map

/-- One parent list of the second plan-tree loop: every referenced parent
fingerprint must be declared in the same plan tree. -/
def check_parent_refs (text : String) (rp : List (String × List String)) :
    List String → Except String Unit
  | [] => .ok ()
  | parent :: ps =>
    if (alookup rp parent).isSome then check_parent_refs text rp ps
    else .error (error_message ("rule '" ++ text ++ "' references parent fingerprint '"
      ++ parent ++ "' not present in its plan tree"))

/-- `entry(fp).or_insert(RulePlanNodeSpec { children: vec![] })`. -/
def or_insert_empty (m : List (String × RulePlanNodeSpec)) (fp : String) :
    List (String × RulePlanNodeSpec) :=
  if (alookup m fp).isSome then m else binsertStr m fp ⟨[]⟩

/-- Second plan-tree loop of phase 3: validate parent references and seed
`nodes_map` with one (empty-children) entry per declared fingerprint. -/
def check_rule_parents (text : String) (rp : List (String × List String)) :
    List (String × List String) → List (String × RulePlanNodeSpec) →
    Except String (List (String × RulePlanNodeSpec))
  | [], m => .ok m
  | (fp, parents) :: rest, m =>
    match check_parent_refs text rp parents with
    | .error e => .error e
    | .ok _ => check_rule_parents text rp rest (or_insert_empty m fp)

/-- Push one derived child edge (`child <- parent`) into the plan-tree map. -/
def push_child (m : List (String × RulePlanNodeSpec)) (parent child : String) :
    List (String × RulePlanNodeSpec) :=
  match alookup m parent with
  | some node => binsertStr m parent ⟨node.children ++ [child]⟩
  | none => binsertStr m parent ⟨[child]⟩

/-- Third plan-tree loop of phase 3: derive children lists from the parent
edges. -/
def derive_children :
    List (String × List String) → List (String × RulePlanNodeSpec) →
    List (String × RulePlanNodeSpec)
  | [], m => m
  | (child, parents) :: rest, m =>
    derive_children rest (parents.foldl (fun acc p => push_child acc p child) m)

/-- Sort and deduplicate every children list, as the source does after the
derivation loop. -/
def sort_children (m : List (String × RulePlanNodeSpec)) : List (String × RulePlanNodeSpec) :=
  m.map (fun x => (x.1, RulePlanNodeSpec.mk (sortDedupD strLtB x.2.children)))

/-- The sinks of a plan-tree map: fingerprints with no children, in map
order. -/
def sinks_of (m : List (String × RulePlanNodeSpec)) : List String :=
  (m.filter (fun x => x.2.children = [])).map (·.1)

/-- The fully derived plan-tree map of one raw rule, as the successful path
of phase 3 computes it (trimmed fingerprints, normalised parents, derived and
sorted children). -/
def derived_nodes_map (raw_parents : List (String × List String)) :
    List (String × RulePlanNodeSpec) :=
  sort_children (derive_children raw_parents
    (raw_parents.foldl (fun m x => or_insert_empty m x.1) []))

/-- Phase 3 of `OpsSpec::validate_and_build` for one rule: build the parent
map, validate references, derive children, and require exactly one sink,
which becomes the rule's root. -/
def validate_rule (fpn : List (String × Nat)) (raw_rule : RawRule) : Except String RuleSpec :=
  match build_raw_parents raw_rule.text fpn raw_rule.plan_tree [] [] with
  | .error e => .error e
  | .ok rp =>
    match check_rule_parents raw_rule.text rp rp [] with
    | .error e => .error e
    | .ok m0 =>
      let m2 := sort_children (derive_children rp m0)
      match sinks_of m2 with
      | [root_fp] => .ok { text := raw_rule.text, root := root_fp, nodes := m2 }
      | _ =>
        .error (error_message ("rule '" ++ raw_rule.text
          ++ "' plan tree must have exactly one sink fingerprint (found "
          ++ toString (sinks_of m2).length ++ ")"))

/-- Phase 3 over all rules, in input order. -/
def validate_rules (fpn : List (String × Nat)) :
    List RawRule → List RuleSpec → Except String (List RuleSpec)
  | [], acc => .ok acc
  | r :: rest, acc =>
    match validate_rule fpn r with
    | .error e => .error e
    | .ok spec => validate_rules fpn rest (acc ++ [spec])

/-- The set of fingerprints recorded in any rule's plan tree (phase 4's
`rule_fps`). -/
def rule_fps (rules : List RuleSpec) : List String :=
  sortDedupD strLtB (rules.flatMap (fun r => r.nodes.map (·.1)))

/-- Phase 4 of `OpsSpec::validate_and_build`: every fingerprinted node must
appear in some rule's plan tree. -/
def check_fps_in_rules (fps : List String) : List (Nat × NodeSpec) → Except String Unit
  | [] => .ok ()
  | (id, node) :: rest =>
    match node.fingerprint with
    | none => check_fps_in_rules fps rest
    | some fp =>
      if fps.contains fp then check_fps_in_rules fps rest
      else .error (error_message ("node " ++ toString id ++ " has fingerprint '" ++ fp
        ++ "' but it is not recorded in rules"))

/-- `OpsSpec::validate_and_build` of `src/ops.rs`, phases in source order. -/
def OpsSpec.validate_and_build (s : OpsSpec) : Except String ValidatedOps :=
  match build_nodes s.nodes [] with
  | .error e => .error e
  | .ok nodes =>
    if nodes = [] then .error (error_message "ops.json contained no nodes")
    else
      match build_fp_maps nodes [] [] with
      | .error e => .error e
      | .ok fpn =>
        let roots := compute_roots nodes
        match check_parents_exist nodes nodes with
        | .error e => .error e
        | .ok _ =>
          match validate_rules fpn s.rules [] with
          | .error e => .error e
          | .ok rules_out =>
            match check_fps_in_rules (rule_fps rules_out) nodes with
            | .error e => .error e
            | .ok _ =>
              .ok { nodes := nodes, roots := roots, rules := rules_out,
                    fingerprint_to_node := fpn }

/-! ## `src/spec/dag.rs`: `DagSpec::validate_and_build` -/

/-- `NameNodeSpec` of `src/spec/dag.rs`. -/
structure NameNodeSpec where
  name : String
  label : Option String := none
deriving DecidableEq

/-- `DagSpec` of `src/spec/dag.rs` (edges are `[src, dst]` pairs). -/
structure DagSpec where
  nodes : List NameNodeSpec
  edges : List (String × String)
  roots : List String := []
deriving DecidableEq

/-- `NameNode` of `src/spec/dag.rs`. -/
structure NameNode where
  name : String
  label : String
deriving DecidableEq

/-- `NameDag` of `src/spec/dag.rs`. -/
structure NameDag where
  nodes : List (String × NameNode)
  children : List (String × List String)
  parents : List (String × List String)
  roots : List String
deriving DecidableEq

/-- The DFS colour marks of `src/spec/dag.rs` (absent = unvisited). -/
inductive Mark where
  | temp
  | perm
deriving DecidableEq

/-- `stack.join(" -> ")`. -/
def joinArrow (l : List String) : String := String.intercalate " -> " l

/-- `children.entry(src).or_default().push(dst)` on a `BTreeMap<String, Vec<String>>`. -/
def push_adj (m : List (String × List String)) (k v : String) : List (String × List String) :=
  match alookup m k with
  | some l => binsertStr m k (l ++ [v])
  | none => binsertStr m k [v]

/-- Step 1 of `DagSpec::validate_and_build`: unique node names. -/
def dag_build_nodes : List NameNodeSpec → List (String × NameNode) →
    Except String (List (String × NameNode))
  | [], acc => .ok acc
  | n :: rest, acc =>
    if (alookup acc n.name).isSome then
      .error ("duplicate node name in dag.json: " ++ n.name)
    else
      dag_build_nodes rest
        (binsertStr acc n.name { name := n.name, label := n.label.getD n.name })

/-- Step 2 of `DagSpec::validate_and_build`: adjacency maps from the edge
list, failing on an edge whose endpoint is not a node. -/
def dag_build_adj (nodes : List (String × NameNode)) :
    List (String × String) → List (String × List String) → List (String × List String) →
    Except String (List (String × List String) × List (String × List String))
  | [], children, parents => .ok (children, parents)
  | (src, dst) :: rest, children, parents =>
    if (alookup nodes src).isNone then
      .error ("edge references unknown src node: " ++ src)
    else if (alookup nodes dst).isNone then
      .error ("edge references unknown dst node: " ++ dst)
    else
      dag_build_adj nodes rest (push_adj children src dst) (push_adj parents dst src)

/-- Step 3 of `DagSpec::validate_and_build`: declared roots must exist; with
no declared roots they are inferred as the nodes of indegree zero, in map
order. -/
def dag_resolve_roots (nodes : List (String × NameNode))
    (parents : List (String × List String)) (declared : List String) :
    Except String (List String) :=
  if declared ≠ [] then
    match declared.find? (fun r => (alookup nodes r).isNone) with
    | some r => .error ("roots references unknown node: " ++ r)
    | none => .ok declared
  else
    .ok ((nodes.map (·.1)).filter (fun n => ((alookup parents n).getD []) = []))

/-- The recursive `dfs` of `src/spec/dag.rs` step 4 together with its
`for k in kids { dfs(k, ...)? }` loop, written as one structural recursion on
an explicit fuel so the kernel can evaluate it (the source recurses on the
heap; `DagSpec.validate_and_build` passes fuel exceeding the deepest possible
recursion, so the fuel branch is never reached on the inputs considered).
`Sum.inl v` visits vertex `v`; `Sum.inr ks` runs the loop over the remaining
children `ks`. A `Temp` mark on the current vertex reports the whole path as
encountered. -/
def dag_dfs_go (children : List (String × List String)) :
    Nat → (String ⊕ List String) → List (String × Mark) → List String →
    Except String (List (String × Mark))
  | 0, _, _, _ => .error "dfs fuel exhausted"
  | fuel + 1, .inl v, marks, stack =>
    match alookup marks v with
    | some .perm => .ok marks
    | some .temp => .error ("cycle detected in dag.json: " ++ joinArrow (stack ++ [v]))
    | none =>
      match dag_dfs_go children fuel (.inr ((alookup children v).getD []))
          (binsertStr marks v .temp) (stack ++ [v]) with
      | .error e => .error e
      | .ok m2 => .ok (binsertStr m2 v .perm)
  | _ + 1, .inr [], marks, _ => .ok marks
  | fuel + 1, .inr (k :: ks), marks, stack =>
    match dag_dfs_go children fuel (.inl k) marks stack with
    | .error e => .error e
    | .ok m2 => dag_dfs_go children fuel (.inr ks) m2 stack

/-- Entry point of one `dfs(v, ...)` call. -/
def dag_dfs (children : List (String × List String)) (fuel : Nat) (v : String)
    (marks : List (String × Mark)) (stack : List String) :
    Except String (List (String × Mark)) :=
  dag_dfs_go children fuel (.inl v) marks stack

/-- The per-root cycle-check loop of step 4; `with_context` is modelled as
prefixing the context line to the underlying message, which is how the
chained `anyhow` error is displayed. -/
def dag_check_cycles (children : List (String × List String)) (fuel : Nat) :
    List String → List (String × Mark) → Except String (List (String × Mark))
  | [], marks => .ok marks
  | r :: rest, marks =>
    match dag_dfs children fuel r marks [] with
    | .error e => .error ("cycle check failed starting at root " ++ r ++ ": " ++ e)
    | .ok m2 => dag_check_cycles children fuel rest m2

/-- `DagSpec::validate_and_build` of `src/spec/dag.rs`. -/
def DagSpec.validate_and_build (d : DagSpec) : Except String NameDag :=
  match dag_build_nodes d.nodes [] with
  | .error e => .error e
  | .ok nodes =>
    if nodes = [] then .error "dag.json must contain at least 1 node"
    else
      match dag_build_adj nodes d.edges [] [] with
      | .error e => .error e
      | .ok (children, parents) =>
        match dag_resolve_roots nodes parents d.roots with
        | .error e => .error e
        | .ok roots =>
          if roots = [] then
            .error "no roots found (graph may contain a cycle or all nodes have parents)"
          else
            match dag_check_cycles children (2 * (nodes.length + d.edges.length) + 4) roots [] with
            | .error e => .error e
            | .ok _ => .ok { nodes := nodes, children := children,
                             parents := parents, roots := roots }

/-! ## `src/log.rs` row types and `src/view.rs`: `build_report_data` -/

/-- `TimeRow` of `src/log.rs`. -/
structure TimeRow where
  activations : Nat
  total_active_ms : ℚ
  op_name : String
deriving DecidableEq

/-- `MemoryRow` of `src/log.rs`. -/
structure MemoryRow where
  batched_in : Nat
  merges : Nat
  merge_in : Nat
  merge_out : Nat
  dropped : Nat
  op_name : String
deriving DecidableEq

/-- `TimeIndex` of `src/log.rs` (address-keyed; the log parser guarantees
unique addresses). -/
abbrev TimeIndex := List (List Nat × TimeRow)

/-- `MemoryIndex` of `src/log.rs`. -/
abbrev MemoryIndex := List (List Nat × MemoryRow)

/-- `OperatorView` of `src/view.rs`. -/
structure OperatorView where
  addr : List Nat
  op_name : String
  activations : Nat
  total_active_ms : ℚ
  batched_in : Option Nat
  merges : Option Nat
  merge_in : Option Nat
  merge_out : Option Nat
  dropped : Option Nat
deriving DecidableEq

/-- `NameNodeView` of `src/view.rs`. -/
structure NameNodeView where
  name : String
  label : String
  block : String
  fingerprint : Option String
  tags : List String
  children : List String
  dag_parents : List String
  extra_parents : List String
  self_activations : Nat
  self_total_active_ms : ℚ
  self_batched_in : Nat
  self_merges : Nat
  self_merge_in : Nat
  self_merge_out : Nat
  self_dropped : Nat
  has_memory_data : Bool
  operators : List OperatorView
deriving DecidableEq

/-- `RulePlanNodeView` of `src/view.rs`. -/
structure RulePlanNodeView where
  fingerprint : String
  node : Option String
  label : Option String
  children : List String
  parents : List String
  shared : Bool
deriving DecidableEq

/-- `RuleView` of `src/view.rs`. -/
structure RuleView where
  text : String
  root : String
  nodes : List (String × RulePlanNodeView)
deriving DecidableEq

/-- `TotalsView` of `src/view.rs`. -/
structure TotalsView where
  names : Nat
  operators_in_time : Nat
  operators_mapped : Nat
  total_mapped_ms : ℚ
  total_mapped_activations : Nat
  total_batched_in : Nat
deriving DecidableEq

/-- `ReportData` of `src/view.rs`. -/
structure ReportData where
  roots : List String
  nodes : List (String × NameNodeView)
  rules : List RuleView
  totals : TotalsView
deriving DecidableEq

/-- The `op_name` mismatch message of `src/view.rs` (used both by phase 0 and
by the per-operator cross-check; `{:?}` on a string renders it quoted). -/
def mismatch_msg (addr : List Nat) (tn mn : String) : String :=
  "op_name mismatch at addr " ++ fmtAddr addr ++ ": time log has " ++ quoteStr tn
    ++ " but memory log has " ++ quoteStr mn

/-- Phase 0 of `build_report_data`: wherever an address appears in both logs,
the operator names must agree. Iterates the memory index as the source
iterates the memory map. -/
def check_cross_source (time : TimeIndex) : MemoryIndex → Except String Unit
  | [] => .ok ()
  | (addr, mr) :: rest =>
    match alookup time addr with
    | some tr =>
      if tr.op_name ≠ mr.op_name then
        .error (error_message (mismatch_msg addr tr.op_name mr.op_name))
      else check_cross_source time rest
    | none => check_cross_source time rest

/-- The multiple-owners message of phase 1 of `build_report_data`. -/
def owner_msg (addr : List Nat) (prev name : String) : String :=
  "operator addr " ++ fmtAddr addr ++ " is assigned to multiple names: " ++ prev
    ++ " and " ++ name

/-- One node's operator addresses claimed into the owner map (phase 1 inner
loop); the owner map is only read through `get`, so it is modelled as an
appended association list. -/
def claim_addrs (name : String) :
    List (List Nat) → List (List Nat × String) → Except String (List (List Nat × String))
  | [], owner => .ok owner
  | a :: as, owner =>
    match alookup owner a with
    | some prev => .error (error_message (owner_msg a prev name))
    | none => claim_addrs name as (owner ++ [(a, name)])

/-- Phase 1 of `build_report_data`: each operator address belongs to at most
one name. -/
def check_ownership :
    List (String × NodeSpec) → List (List Nat × String) →
    Except String (List (List Nat × String))
  | [], owner => .ok owner
  | (name, spec) :: rest, owner =>
    match claim_addrs name spec.operators owner with
    | .error e => .error e
    | .ok o2 => check_ownership rest o2

/-- Phase 2 of `build_report_data`: parent ids stringified, sorted and
deduplicated (string order, as the source sorts `Vec<String>`). -/
def node_norm_parents (sp : NodeSpec) : List String :=
  normalize_parents_str (sp.parents.map toString)

/-- The primary parent: first entry of the normalised parent list. -/
def primary_parent_of (sp : NodeSpec) : Option String := (node_norm_parents sp).head?

/-- The extra parents: all but the first normalised parent. -/
def extra_parents_of (sp : NodeSpec) : List String := (node_norm_parents sp).tail

/-- Insertion into a sorted list keeping duplicates, modelling plain
`Vec::sort` (the lists it is applied to are duplicate-free anyway). -/
def insSortedKeep {α : Type} (lt : α → α → Bool) (x : α) : List α → List α
  | [] => [x]
  | y :: ys => if lt x y then x :: y :: ys else y :: insSortedKeep lt x ys

/-- Sort with respect to a strict comparator, keeping duplicates. -/
def sortByD {α : Type} (lt : α → α → Bool) (l : List α) : List α :=
  l.foldr (insSortedKeep lt) []

/-- `tree_children` of phase 2: the (sorted) names whose primary parent is
`p`; absent entries read as the empty list via `unwrap_or_default`. -/
def tree_children (nodes : List (String × NodeSpec)) (p : String) : List String :=
  sortByD strLtB ((nodes.filter (fun x => primary_parent_of x.2 = some p)).map (·.1))

/-- The root set of `build_report_data`: provided roots plus every node
without a primary parent, collected through a `BTreeSet` (sorted,
deduplicated). -/
def roots_set (nodes : List (String × NodeSpec)) (roots0 : List String) : List String :=
  sortDedupD strLtB
    (roots0 ++ (nodes.filter (fun x => primary_parent_of x.2 = none)).map (·.1))

/-- The missing-address warning of phase 3 of `build_report_data`. -/
def warn_missing (name : String) (addr : List Nat) : String :=
  "ops.json maps name '" ++ name ++ "' to addr " ++ fmtAddr addr
    ++ ", but addr not found in time log"

/-- The global running totals of phase 3. -/
structure AggTotals where
  total_mapped_ms : ℚ
  total_mapped_activations : Nat
  operators_mapped : Nat
  total_batched_in : Nat
deriving DecidableEq

/-- The per-node accumulators of phase 3. -/
structure OpAcc where
  operators : List OperatorView
  self_ms : ℚ
  self_act : Nat
  self_batched_in : Nat
  self_merges : Nat
  self_merge_in : Nat
  self_merge_out : Nat
  self_dropped : Nat
  has_memory_data : Bool
deriving DecidableEq

/-- The empty per-node accumulator. -/
def OpAcc.init : OpAcc := ⟨[], 0, 0, 0, 0, 0, 0, 0, false⟩

/-- The per-address body of phase 3: look up the time row (warning and zero
fields when absent), look up the memory row, cross-check the names when both
are present, accumulate node sums and global totals, and push the
`OperatorView`. -/
def process_ops (time : TimeIndex) (memory : MemoryIndex) (name : String) :
    List (List Nat) → OpAcc → AggTotals → List String →
    Except String (OpAcc × AggTotals × List String)
  | [], acc, tot, w => .ok (acc, tot, w)
  | addr :: rest, acc, tot, w =>
    let tlook := alookup time addr
    let activations := match tlook with | some tr => tr.activations | none => 0
    let total_active_ms := match tlook with | some tr => tr.total_active_ms | none => 0
    let op_name := match tlook with | some tr => tr.op_name | none => ""
    let w1 := match tlook with
      | some _ => w
      | none => w ++ [warn_message (warn_missing name addr)]
    let acc1 := match tlook with
      | some tr => { acc with self_ms := acc.self_ms + tr.total_active_ms,
                              self_act := acc.self_act + tr.activations }
      | none => acc
    let tot1 := match tlook with
      | some tr => { tot with total_mapped_ms := tot.total_mapped_ms + tr.total_active_ms,
                              total_mapped_activations :=
                                tot.total_mapped_activations + tr.activations,
                              operators_mapped := tot.operators_mapped + 1 }
      | none => tot
    match alookup memory addr with
    | some mr =>
      if op_name ≠ "" ∧ mr.op_name ≠ op_name then
        .error (error_message (mismatch_msg addr op_name mr.op_name))
      else
        let opview : OperatorView :=
          { addr := addr, op_name := op_name, activations := activations,
            total_active_ms := total_active_ms, batched_in := some mr.batched_in,
            merges := some mr.merges, merge_in := some mr.merge_in,
            merge_out := some mr.merge_out, dropped := some mr.dropped }
        let acc2 :=
          { acc1 with
            self_batched_in := acc1.self_batched_in + mr.batched_in,
            self_merges := acc1.self_merges + mr.merges,
            self_merge_in := acc1.self_merge_in + mr.merge_in,
            self_merge_out := acc1.self_merge_out + mr.merge_out,
            self_dropped := acc1.self_dropped + mr.dropped,
            has_memory_data := true,
            operators := acc1.operators ++ [opview] }
        let tot2 := { tot1 with total_batched_in := tot1.total_batched_in + mr.batched_in }
        process_ops time memory name rest acc2 tot2 w1
    | none =>
      let opview : OperatorView :=
        { addr := addr, op_name := op_name, activations := activations,
          total_active_ms := total_active_ms, batched_in := none, merges := none,
          merge_in := none, merge_out := none, dropped := none }
      let acc2 := { acc1 with operators := acc1.operators ++ [opview] }
      process_ops time memory name rest acc2 tot1 w1

/-- Assembling one `NameNodeView` from a node's spec and its finished
accumulator (operators sorted by address ascending, as the source sorts
them). -/
def node_view_of (all : List (String × NodeSpec)) (name : String) (spec : NodeSpec)
    (acc : OpAcc) : NameNodeView :=
  { name := name
    label := spec.label
    block := spec.block
    fingerprint := spec.fingerprint
    tags := spec.tags
    children := tree_children all name
    dag_parents := node_norm_parents spec
    extra_parents := extra_parents_of spec
    self_activations := acc.self_act
    self_total_active_ms := acc.self_ms
    self_batched_in := acc.self_batched_in
    self_merges := acc.self_merges
    self_merge_in := acc.self_merge_in
    self_merge_out := acc.self_merge_out
    self_dropped := acc.self_dropped
    has_memory_data := acc.has_memory_data
    operators := sortByD (fun a b => lexLt a.addr b.addr) acc.operators }

/-- Phase 3 of `build_report_data` over all nodes, in map order. -/
def process_nodes (time : TimeIndex) (memory : MemoryIndex)
    (all : List (String × NodeSpec)) :
    List (String × NodeSpec) → List (String × NameNodeView) → AggTotals → List String →
    Except String (List (String × NameNodeView) × AggTotals × List String)
  | [], views, tot, w => .ok (views, tot, w)
  | (name, spec) :: rest, views, tot, w =>
    match process_ops time memory name spec.operators OpAcc.init tot w with
    | .error e => .error e
    | .ok (acc, tot1, w1) =>
      process_nodes time memory all rest
        (views ++ [(name, node_view_of all name spec acc)]) tot1 w1

/-- `parents.entry(child).or_default().push(fp)` of `build_rule_views`. -/
def push_parent (m : List (String × List String)) (child fp : String) :
    List (String × List String) :=
  match alookup m child with
  | some l => binsertStr m child (l ++ [fp])
  | none => binsertStr m child [fp]

/-- The per-rule parent map of `build_rule_views`. -/
def rule_parents_map :
    List (String × RulePlanNodeSpec) → List (String × List String) →
    List (String × List String)
  | [], m => m
  | (fp, node) :: rest, m =>
    rule_parents_map rest (node.children.foldl (fun acc c => push_parent acc c fp) m)

/-- The per-fingerprint entries of one rule view. -/
def build_rule_view_nodes (nodes_spec : List (String × NodeSpec))
    (fpn : List (String × String)) (parents : List (String × List String)) :
    List (String × RulePlanNodeSpec) → List (String × RulePlanNodeView)
  | [] => []
  | (fp, node) :: rest =>
    let node_name := alookup fpn fp
    let label := (node_name.bind (alookup nodes_spec)).map (·.label)
    let parent_list := (alookup parents fp).getD []
    (fp, { fingerprint := fp, node := node_name, label := label,
           children := node.children, parents := parent_list,
           shared := parent_list.length > 1 })
      :: build_rule_view_nodes nodes_spec fpn parents rest

/-- `build_rule_views` of `src/view.rs`. -/
def build_rule_views (rules_spec : List RuleSpec) (nodes_spec : List (String × NodeSpec))
    (fpn : List (String × String)) : List RuleView :=
  rules_spec.map (fun rule =>
    { text := rule.text, root := rule.root,
      nodes := build_rule_view_nodes nodes_spec fpn (rule_parents_map rule.nodes [])
        rule.nodes })

/-- `build_report_data` of `src/view.rs`. The non-fatal warning stream is
returned alongside the report (see `warn_message`). -/
def build_report_data (nodes_spec : List (String × NodeSpec)) (roots0 : List String)
    (rules_spec : List RuleSpec) (fingerprint_to_node : List (String × String))
    (time : TimeIndex) (memory : MemoryIndex) :
    Except String (ReportData × List String) :=
  match check_cross_source time memory with
  | .error e => .error e
  | .ok _ =>
    match check_ownership nodes_spec [] with
    | .error e => .error e
    | .ok _ =>
      match process_nodes time memory nodes_spec nodes_spec [] ⟨0, 0, 0, 0⟩ [] with
      | .error e => .error e
      | .ok (views, tot, w) =>
        .ok ({ roots := roots_set nodes_spec roots0,
               nodes := views,
               rules := build_rule_views rules_spec nodes_spec fingerprint_to_node,
               totals := { names := nodes_spec.length,
                           operators_in_time := time.length,
                           operators_mapped := tot.operators_mapped,
                           total_mapped_ms := tot.total_mapped_ms,
                           total_mapped_activations := tot.total_mapped_activations,
                           total_batched_in := tot.total_batched_in } }, w)

/-! ## `src/main.rs` glue: stringified node map, roots and fingerprint map -/

/-- `main.rs`: the node map rekeyed by `id.to_string()` (a `BTreeMap`
iterates in string order, hence the re-insertion). -/
def stringify_nodes (nodes : List (Nat × NodeSpec)) : List (String × NodeSpec) :=
  (nodes.map (fun x => (toString x.1, x.2))).foldl (fun m x => binsertStr m x.1 x.2) []

/-- `main.rs`: the fingerprint map with stringified node ids. -/
def stringify_fp (fpn : List (String × Nat)) : List (String × String) :=
  (fpn.map (fun x => (x.1, toString x.2))).foldl (fun m x => binsertStr m x.1 x.2) []

/-- `main.rs`: the root ids stringified in order. -/
def stringify_roots (roots : List Nat) : List String := roots.map toString

/-! ## `src/render/html.rs`: the wheel-zoom handler -/

/-- The `state.graph` viewport transform: `translate(tx ty) scale(scale)`. -/
structure GraphTransform where
  tx : ℚ
  ty : ℚ
  scale : ℚ
deriving DecidableEq

/-- The scale clamp of the wheel handler (`Math.max(0.2, Math.min(4.0, s))`;
`0.2` is the exact rational 1/5 in this model). -/
def clamp_scale (x : ℚ) : ℚ := max (1/5) (min 4 x)

/-- A graph-space point mapped to SVG coordinates by the viewport transform
(`translate(tx ty) scale(scale)` applies the scale first, then the
translation). -/
def apply_transform (st : GraphTransform) (gx gy : ℚ) : ℚ × ℚ :=
  (st.tx + st.scale * gx, st.ty + st.scale * gy)

/-- The wheel handler of `render_html_report`: clamp the new scale, return
unchanged when the clamp leaves the scale as it was, otherwise recompute the
translation around the cursor `(cx, cy)` (given in SVG root coordinates, as
`matrixTransform(getScreenCTM().inverse())` produces) and store the new
scale. `factor` stands for `Math.exp(-e.deltaY * 0.001)`, an arbitrary
positive wheel factor. -/
def wheel_zoom (st : GraphTransform) (cx cy factor : ℚ) : GraphTransform :=
  let oldScale := st.scale
  let newScale := clamp_scale (oldScale * factor)
  if newScale = oldScale then st
  else
    { tx := st.tx + (cx - st.tx) * (1 - newScale / oldScale)
      ty := st.ty + (cy - st.ty) * (1 - newScale / oldScale)
      scale := newScale }

/-! ## Success-path characterizations and helper values

The definitions below restate what the fallible folds above compute on their
successful path, as direct functions of the inputs; the lemmas further down
prove them equal to the folds. They exist so that theorem statements can
speak about the produced values without re-running the folds. -/

/-- The time contribution of one address: the row's `total_active_ms`, or 0
when the address is absent from the time log. -/
def time_ms (time : TimeIndex) (a : List Nat) : ℚ :=
  match alookup time a with
  | some tr => tr.total_active_ms
  | none => 0

/-- The activation contribution of one address: the row's `activations`, or 0
when the address is absent from the time log. -/
def time_act (time : TimeIndex) (a : List Nat) : Nat :=
  match alookup time a with
  | some tr => tr.activations
  | none => 0

/-- The `OperatorView` the per-address body of phase 3 pushes for one
address (zero-valued time fields and empty name when the address is absent
from the time log; memory fields from the memory log when present). -/
def op_view_of (time : TimeIndex) (memory : MemoryIndex) (a : List Nat) : OperatorView :=
  { addr := a
    op_name := match alookup time a with | some tr => tr.op_name | none => ""
    activations := time_act time a
    total_active_ms := time_ms time a
    batched_in := (alookup memory a).map MemoryRow.batched_in
    merges := (alookup memory a).map MemoryRow.merges
    merge_in := (alookup memory a).map MemoryRow.merge_in
    merge_out := (alookup memory a).map MemoryRow.merge_out
    dropped := (alookup memory a).map MemoryRow.dropped }

/-- The memory contribution of one address to a node's memory sums (0 when
absent from the memory log). -/
def mem_field (memory : MemoryIndex) (f : MemoryRow → Nat) (a : List Nat) : Nat :=
  match alookup memory a with
  | some mr => f mr
  | none => 0

/-- The finished per-node accumulator of phase 3 for a given address list. -/
def pure_op_acc (time : TimeIndex) (memory : MemoryIndex) (addrs : List (List Nat)) : OpAcc :=
  { operators := addrs.map (op_view_of time memory)
    self_ms := (addrs.map (time_ms time)).sum
    self_act := (addrs.map (time_act time)).sum
    self_batched_in := (addrs.map (mem_field memory MemoryRow.batched_in)).sum
    self_merges := (addrs.map (mem_field memory MemoryRow.merges)).sum
    self_merge_in := (addrs.map (mem_field memory MemoryRow.merge_in)).sum
    self_merge_out := (addrs.map (mem_field memory MemoryRow.merge_out)).sum
    self_dropped := (addrs.map (mem_field memory MemoryRow.dropped)).sum
    has_memory_data := addrs.any (fun a => (alookup memory a).isSome) }

/-- The warnings one node's address loop appends. -/
def node_warnings (time : TimeIndex) (name : String) (addrs : List (List Nat)) : List String :=
  addrs.filterMap (fun a =>
    match alookup time a with
    | some _ => none
    | none => some (warn_message (warn_missing name a)))

/-- The `NameNodeView` phase 3 produces for one node on success. -/
def pure_node_view (time : TimeIndex) (memory : MemoryIndex)
    (all : List (String × NodeSpec)) (name : String) (sp : NodeSpec) : NameNodeView :=
  node_view_of all name sp (pure_op_acc time memory sp.operators)

/-- The per-node contribution to the global totals. -/
def node_tot_delta (time : TimeIndex) (memory : MemoryIndex) (addrs : List (List Nat)) :
    AggTotals :=
  { total_mapped_ms :=
      (addrs.filterMap (fun a => (alookup time a).map TimeRow.total_active_ms)).sum
    total_mapped_activations :=
      (addrs.filterMap (fun a => (alookup time a).map TimeRow.activations)).sum
    operators_mapped := (addrs.filter (fun a => (alookup time a).isSome)).length
    total_batched_in :=
      (addrs.filterMap (fun a => (alookup memory a).map MemoryRow.batched_in)).sum }

/-- Pointwise sum of totals accumulators. -/
def tot_add (t u : AggTotals) : AggTotals :=
  { total_mapped_ms := t.total_mapped_ms + u.total_mapped_ms
    total_mapped_activations := t.total_mapped_activations + u.total_mapped_activations
    operators_mapped := t.operators_mapped + u.operators_mapped
    total_batched_in := t.total_batched_in + u.total_batched_in }

/-- The flattened (address, owning name) claim list of phase 1, in iteration
order. -/
def node_claims (nodes_spec : List (String × NodeSpec)) : List (List Nat × String) :=
  nodes_spec.flatMap (fun p => p.2.operators.map (fun a => (a, p.1)))

/-- The ownership fold over the flattened claim list; proved equal to
`check_ownership`. -/
def claim_fold : List (List Nat × String) → List (List Nat × String) →
    Except String (List (List Nat × String))
  | [], owner => .ok owner
  | (a, n) :: rest, owner =>
    match alookup owner a with
    | some prev => .error (error_message (owner_msg a prev n))
    | none => claim_fold rest (owner ++ [(a, n)])

/-- The raw-parents map the first plan-tree loop produces on success. -/
def pure_raw_parents : List RawPlanNode → List (String × List String) →
    List (String × List String)
  | [], rp => rp
  | pn :: rest, rp =>
    pure_raw_parents rest
      (binsertStr rp (trimStr pn.fingerprint) (normalize_parents_str pn.parents))

/-- The fully derived plan-tree map of a raw rule (successful path of
phase 3). -/
def rule_pure_map (r : RawRule) : List (String × RulePlanNodeSpec) :=
  derived_nodes_map (pure_raw_parents r.plan_tree [])

/-- The first node (in ascending id order) carrying a fingerprint. -/
def first_carrier (nodes : List (Nat × NodeSpec)) (fp : String) : Option Nat :=
  (nodes.find? (fun x => x.2.fingerprint = some fp)).map (·.1)

/-- Reachability from the root set along primary-parent edges only: a node of
the root set reaches a root, and a node whose primary parent reaches a root
reaches one too. -/
inductive ReachesRoot (nodes : List (String × NodeSpec)) (roots0 : List String) : String → Prop
  | root (n : String) (h : n ∈ roots_set nodes roots0) : ReachesRoot nodes roots0 n
  | step (n p : String) (hp : ∃ sp, (n, sp) ∈ nodes ∧ primary_parent_of sp = some p)
      (h : ReachesRoot nodes roots0 p) : ReachesRoot nodes roots0 n

/-- The per-node accumulator after processing an address list starting from
`acc` (what `process_ops` computes on its successful path). -/
def acc_after (time : TimeIndex) (memory : MemoryIndex) (acc : OpAcc)
    (addrs : List (List Nat)) : OpAcc :=
  { operators := acc.operators ++ addrs.map (op_view_of time memory)
    self_ms := acc.self_ms + (addrs.map (time_ms time)).sum
    self_act := acc.self_act + (addrs.map (time_act time)).sum
    self_batched_in :=
      acc.self_batched_in + (addrs.map (mem_field memory MemoryRow.batched_in)).sum
    self_merges := acc.self_merges + (addrs.map (mem_field memory MemoryRow.merges)).sum
    self_merge_in :=
      acc.self_merge_in + (addrs.map (mem_field memory MemoryRow.merge_in)).sum
    self_merge_out :=
      acc.self_merge_out + (addrs.map (mem_field memory MemoryRow.merge_out)).sum
    self_dropped := acc.self_dropped + (addrs.map (mem_field memory MemoryRow.dropped)).sum
    has_memory_data :=
      acc.has_memory_data || addrs.any (fun a => (alookup memory a).isSome) }

/-- The summed global-totals contribution of a node list. -/
def nodes_tot_delta (time : TimeIndex) (memory : MemoryIndex)
    (l : List (String × NodeSpec)) : AggTotals :=
  l.foldr (fun p acc => tot_add (node_tot_delta time memory p.2.operators) acc) ⟨0, 0, 0, 0⟩

/-! ## Concrete inputs used by the claim theorems -/

/-- A two-node ops topology whose parent relation is the directed cycle
A <-> B: node 0 (A) has parent 1, node 1 (B) has parent 0. -/
def cyclic_ops_spec : OpsSpec :=
  { nodes := [{ id := 0, name := "A", parents := [1] },
              { id := 1, name := "B", parents := [0] }] }

/-- A name DAG with nodes A and B, edges A -> B and B -> A, and declared
root A. -/
def cyclic_dag_spec : DagSpec :=
  { nodes := [{ name := "A" }, { name := "B" }],
    edges := [("A", "B"), ("B", "A")], roots := ["A"] }

/-- A three-node ops topology in which every node has a parent (a directed
3-cycle), so the computed root set is empty. -/
def all_parents_spec : OpsSpec :=
  { nodes := [{ id := 0, name := "X", parents := [2] },
              { id := 1, name := "Y", parents := [0] },
              { id := 2, name := "Z", parents := [1] }] }

/-- A one-node name DAG (used to instantiate the DagSpec root property). -/
def one_dag_spec : DagSpec := { nodes := [{ name := "A" }], edges := [] }

/-- An ops spec whose single rule's plan tree has two sinks (both plan nodes
have no parents, hence both derived children lists are empty). -/
def two_sink_spec : OpsSpec :=
  { nodes := [{ id := 0, name := "A", fingerprint := some "f1" },
              { id := 1, name := "B", fingerprint := some "f2" }],
    rules := [{ text := "r", plan_tree := [⟨"f1", []⟩, ⟨"f2", []⟩] }] }

/-- The fingerprint map in scope when the two-sink rule is validated. -/
def two_sink_fpn : List (String × Nat) := [("f1", 0), ("f2", 1)]

/-- The two-sink rule alone. -/
def two_sink_rule : RawRule := { text := "r", plan_tree := [⟨"f1", []⟩, ⟨"f2", []⟩] }

/-- A rule with exactly one sink: f1 is a parent of f2, so f2 is the only
fingerprint without children. -/
def one_sink_rule : RawRule := { text := "r", plan_tree := [⟨"f1", []⟩, ⟨"f2", ["f1"]⟩] }

/-- Two nodes in different blocks carrying the same fingerprint, the
fingerprint recorded in a rule. -/
def c10_spec : OpsSpec :=
  { nodes := [{ id := 7, name := "seven", block := some "b2", fingerprint := some "shared" },
              { id := 5, name := "five", block := some "b1", fingerprint := some "shared" }],
    rules := [{ text := "rr", plan_tree := [⟨"shared", []⟩] }] }

/-- Aggregation witness node: owns addresses [0], [1] and [9] ([9] is absent
from the witness time log). -/
def w_node_a : NodeSpec :=
  { id := 0, label := "LA", block := "other", fingerprint := none, tags := [],
    parents := [], operators := [[0], [1], [9]] }

/-- Aggregation witness node: owns address [2]. -/
def w_node_b : NodeSpec :=
  { id := 1, label := "LB", block := "other", fingerprint := none, tags := [],
    parents := [0], operators := [[2]] }

/-- A node claiming address [0], already owned by `w_node_a`. -/
def w_node_dup : NodeSpec :=
  { id := 1, label := "LB", block := "other", fingerprint := none, tags := [],
    parents := [0], operators := [[0]] }

/-- Witness time log: addresses [0], [1], [2] with total-active-times 10, 5
and 7. -/
def w_time : TimeIndex :=
  [([0], ⟨3, 10, "Op0"⟩), ([1], ⟨4, 5, "Op1"⟩), ([2], ⟨1, 7, "Op2"⟩)]

/-- Witness memory log: address [2], operator name agreeing with the time
log. -/
def w_memory : MemoryIndex := [([2], ⟨100, 2, 3, 4, 5, "Op2"⟩)]

/-- Witness memory log whose operator name at address [2] disagrees with the
time log. -/
def w_memory_bad : MemoryIndex := [([2], ⟨100, 2, 3, 4, 5, "Wrong"⟩)]

/-- Spanning-tree witness nodes: "0" is a root, "1" has parent 0, "2" has
parents 0 and 1. -/
def c7_n0 : NodeSpec :=
  { id := 0, label := "", block := "other", fingerprint := none, tags := [],
    parents := [], operators := [] }

/-- Second spanning-tree witness node. -/
def c7_n1 : NodeSpec :=
  { id := 1, label := "", block := "other", fingerprint := none, tags := [],
    parents := [0], operators := [] }

/-- Third spanning-tree witness node. -/
def c7_n2 : NodeSpec :=
  { id := 2, label := "", block := "other", fingerprint := none, tags := [],
    parents := [0, 1], operators := [] }

/-- The spanning-tree witness node map. -/
def c7_nodes : List (String × NodeSpec) := [("0", c7_n0), ("1", c7_n1), ("2", c7_n2)]

/-! ## Basic lemmas about the list helpers -/

theorem alookup_mem {α β : Type} [DecidableEq α] {l : List (α × β)} {a : α} {b : β}
    (h : alookup l a = some b) : (a, b) ∈ l := by
  induction l with
  | nil => simp [alookup] at h
  | cons p rest ih =>
    obtain ⟨k, v⟩ := p
    by_cases hk : k = a
    · subst hk
      simp [alookup] at h
      simp [h]
    · simp [alookup, hk] at h
      exact List.mem_cons_of_mem _ (ih h)

theorem alookup_eq_none_iff {α β : Type} [DecidableEq α] {l : List (α × β)} {a : α} :
    alookup l a = none ↔ a ∉ l.map Prod.fst := by
  induction l with
  | nil => simp [alookup]
  | cons p rest ih =>
    obtain ⟨k, v⟩ := p
    by_cases hk : k = a
    · subst hk
      simp [alookup]
    · have h1 : alookup ((k, v) :: rest) a = alookup rest a := by simp [alookup, hk]
      rw [h1, ih]
      simp only [List.map_cons, List.mem_cons]
      constructor
      · intro h hor
        exact hor.elim (fun he => hk he.symm) h
      · intro h hm
        exact h (Or.inr hm)

theorem alookup_of_mem_nodup {α β : Type} [DecidableEq α] {l : List (α × β)}
    (hnd : (l.map Prod.fst).Nodup) {a : α} {b : β} (h : (a, b) ∈ l) :
    alookup l a = some b := by
  induction l with
  | nil => simp at h
  | cons p rest ih =>
    obtain ⟨k, v⟩ := p
    simp only [List.map_cons, List.nodup_cons] at hnd
    rcases List.mem_cons.mp h with he | hm
    · cases he
      simp [alookup]
    · have hka : ¬ k = a := by
        rintro rfl
        exact hnd.1 (List.mem_map.mpr ⟨(k, b), hm, rfl⟩)
      simp [alookup, hka]
      exact ih hnd.2 hm

theorem nodup_keys_eq {α β : Type} [DecidableEq α] {l : List (α × β)}
    (hnd : (l.map Prod.fst).Nodup) {a : α} {b c : β}
    (h1 : (a, b) ∈ l) (h2 : (a, c) ∈ l) : b = c := by
  have e1 := alookup_of_mem_nodup hnd h1
  have e2 := alookup_of_mem_nodup hnd h2
  rw [e1] at e2
  exact Option.some.inj e2

theorem alookup_append_left {α β : Type} [DecidableEq α] {l1 l2 : List (α × β)} {a : α}
    {b : β} (h : alookup l1 a = some b) : alookup (l1 ++ l2) a = some b := by
  induction l1 with
  | nil => simp [alookup] at h
  | cons p rest ih =>
    obtain ⟨k, v⟩ := p
    by_cases hk : k = a <;> simp [alookup, hk] at h ⊢
    · exact h
    · exact ih h

theorem alookup_append_right {α β : Type} [DecidableEq α] {l1 l2 : List (α × β)} {a : α}
    (h : alookup l1 a = none) : alookup (l1 ++ l2) a = alookup l2 a := by
  induction l1 with
  | nil => simp [alookup]
  | cons p rest ih =>
    obtain ⟨k, v⟩ := p
    by_cases hk : k = a <;> simp [alookup, hk] at h ⊢
    exact ih h

theorem mem_insSortedD {α : Type} [DecidableEq α] {lt : α → α → Bool} {x a : α}
    {l : List α} : a ∈ insSortedD lt x l ↔ a = x ∨ a ∈ l := by
  induction l with
  | nil => simp [insSortedD]
  | cons y ys ih =>
    simp only [insSortedD]
    by_cases hxy : x = y
    · subst hxy
      simp only [if_pos rfl]
      constructor
      · intro h
        exact Or.inr h
      · rintro (rfl | h)
        · exact List.mem_cons_self _ _
        · exact h
    · rw [if_neg hxy]
      by_cases hlt : lt x y = true
      · rw [if_pos hlt]
        simp [List.mem_cons]
      · rw [if_neg hlt]
        simp only [List.mem_cons, ih]
        tauto

theorem mem_sortDedupD {α : Type} [DecidableEq α] {lt : α → α → Bool} {l : List α}
    {a : α} : a ∈ sortDedupD lt l ↔ a ∈ l := by
  induction l with
  | nil => simp [sortDedupD]
  | cons x xs ih =>
    show a ∈ insSortedD lt x (sortDedupD lt xs) ↔ _
    rw [mem_insSortedD]
    simp [ih]

theorem mem_insSortedKeep {α : Type} {lt : α → α → Bool} {x a : α} {l : List α} :
    a ∈ insSortedKeep lt x l ↔ a = x ∨ a ∈ l := by
  induction l with
  | nil => simp [insSortedKeep]
  | cons y ys ih =>
    simp only [insSortedKeep]
    by_cases hlt : lt x y = true
    · rw [if_pos hlt]
      simp [List.mem_cons]
    · rw [if_neg hlt]
      simp only [List.mem_cons, ih]
      tauto

theorem mem_sortByD {α : Type} {lt : α → α → Bool} {l : List α} {a : α} :
    a ∈ sortByD lt l ↔ a ∈ l := by
  induction l with
  | nil => simp [sortByD]
  | cons x xs ih =>
    show a ∈ insSortedKeep lt x (sortByD lt xs) ↔ _
    rw [mem_insSortedKeep]
    simp [ih]

theorem alookup_binsertStr {β : Type} {m : List (String × β)} {k a : String} {v : β} :
    alookup (binsertStr m k v) a = if a = k then some v else alookup m a := by
  induction m with
  | nil =>
    by_cases h : a = k
    · simp [binsertStr, alookup, h]
    · have h' : ¬ k = a := fun he => h he.symm
      simp [binsertStr, alookup, h, h']
  | cons p rest ih =>
    obtain ⟨k', v'⟩ := p
    simp only [binsertStr]
    by_cases h1 : k = k'
    · subst h1
      by_cases h2 : a = k
      · subst h2
        simp [alookup]
      · have h2' : ¬ k = a := fun he => h2 he.symm
        simp [alookup, h2, h2']
    · by_cases hlt : strLtB k k' = true
      · rw [if_neg h1, if_pos hlt]
        by_cases h2 : a = k
        · subst h2
          simp [alookup]
        · have h2' : ¬ k = a := fun he => h2 he.symm
          simp [alookup, h2, h2']
      · rw [if_neg h1, if_neg hlt]
        by_cases h2 : k' = a
        · subst h2
          have hne : ¬ k' = k := fun he => h1 he.symm
          simp [alookup, hne]
        · simp [alookup, h2, ih]

/-! ## C9: wheel zoom -/

/-- C9: for every wheel-zoom operation, the new scale equals the old scale
times the wheel factor, clamped to [0.2, 4.0]; the graph-space point that was
under the cursor before the zoom (namely `((cx - tx)/scale, (cy - ty)/scale)`,
as the second conjunct certifies) maps back to the cursor point under the
recomputed translate-and-scale transform. In this exact-rational model of the
`f64` arithmetic the anchoring identity holds with no tolerance. -/
theorem wheel_zoom_anchors (st : GraphTransform) (cx cy factor : ℚ)
    (hs : st.scale ≠ 0) :
    (wheel_zoom st cx cy factor).scale = clamp_scale (st.scale * factor) ∧
    apply_transform st ((cx - st.tx) / st.scale) ((cy - st.ty) / st.scale) = (cx, cy) ∧
    apply_transform (wheel_zoom st cx cy factor) ((cx - st.tx) / st.scale)
      ((cy - st.ty) / st.scale) = (cx, cy) := by
  have hanchor : apply_transform st ((cx - st.tx) / st.scale) ((cy - st.ty) / st.scale)
      = (cx, cy) := by
    unfold apply_transform
    have h1 : st.tx + st.scale * ((cx - st.tx) / st.scale) = cx := by
      field_simp
    have h2 : st.ty + st.scale * ((cy - st.ty) / st.scale) = cy := by
      field_simp
    rw [h1, h2]
  have hz : wheel_zoom st cx cy factor =
      if clamp_scale (st.scale * factor) = st.scale then st
      else { tx := st.tx + (cx - st.tx) * (1 - clamp_scale (st.scale * factor) / st.scale),
             ty := st.ty + (cy - st.ty) * (1 - clamp_scale (st.scale * factor) / st.scale),
             scale := clamp_scale (st.scale * factor) } := rfl
  by_cases h : clamp_scale (st.scale * factor) = st.scale
  · rw [hz, if_pos h]
    exact ⟨h.symm, hanchor, hanchor⟩
  · rw [hz, if_neg h]
    refine ⟨rfl, hanchor, ?_⟩
    unfold apply_transform
    have h1 : st.tx + (cx - st.tx) * (1 - clamp_scale (st.scale * factor) / st.scale)
        + clamp_scale (st.scale * factor) * ((cx - st.tx) / st.scale) = cx := by
      field_simp
      ring
    have h2 : st.ty + (cy - st.ty) * (1 - clamp_scale (st.scale * factor) / st.scale)
        + clamp_scale (st.scale * factor) * ((cy - st.ty) / st.scale) = cy := by
      field_simp
      ring
    exact Prod.ext h1 h2

/-- Witness for C9 at a concrete zoom: old transform (tx, ty, scale) =
(1, 2, 1), cursor (10, 20), wheel factor 2. -/
theorem wheel_zoom_anchors_witness :
    (wheel_zoom ⟨1, 2, 1⟩ 10 20 2).scale = clamp_scale ((1 : ℚ) * 2) ∧
    apply_transform ⟨1, 2, 1⟩ ((10 - 1) / 1) ((20 - 2) / 1) = (10, 20) ∧
    apply_transform (wheel_zoom ⟨1, 2, 1⟩ 10 20 2) ((10 - 1) / 1) ((20 - 2) / 1)
      = (10, 20) :=
  wheel_zoom_anchors ⟨1, 2, 1⟩ 10 20 2 (by norm_num)

/-! ## C1: cycle detection -/

/-- C1 counterexample: the live validator `OpsSpec::validate_and_build`
accepts the two-node parent cycle A <-> B (it performs no cycle detection),
so a topology whose node/edge relation contains a directed cycle does not
make `validate_and_build` fail. The second and third conjuncts exhibit the
cycle in the input. -/
theorem cyclic_ops_spec_validates :
    (OpsSpec.validate_and_build cyclic_ops_spec).isOk = true ∧
    (1 : Nat) ∈ (cyclic_ops_spec.nodes.get ⟨0, by decide⟩).parents ∧
    (0 : Nat) ∈ (cyclic_ops_spec.nodes.get ⟨1, by decide⟩).parents := by
  refine ⟨rfl, by decide, by decide⟩

/-- C1 amended: `OpsSpec::validate_and_build` performs no cycle detection and
validates the cyclic topology successfully; the cycle error of the spec lives
in `DagSpec::validate_and_build`, whose DFS rejects the two-node cycle
A -> B -> A reachable from declared root A with an error containing the full
cycle path as encountered — in particular both A and B. -/
theorem c1_cycle_error_only_in_dag :
    (∃ v, OpsSpec.validate_and_build cyclic_ops_spec = .ok v) ∧
    DagSpec.validate_and_build cyclic_dag_spec =
      .error "cycle check failed starting at root A: cycle detected in dag.json: A -> B -> A" ∧
    (∃ p q, "cycle check failed starting at root A: cycle detected in dag.json: A -> B -> A"
      = p ++ "A" ++ q) ∧
    (∃ p q, "cycle check failed starting at root A: cycle detected in dag.json: A -> B -> A"
      = p ++ "B" ++ q) := by
  refine ⟨⟨_, rfl⟩, rfl, ⟨"cycle check failed starting at root ",
    ": cycle detected in dag.json: A -> B -> A", rfl⟩,
    ⟨"cycle check failed starting at root A: cycle detected in dag.json: A -> ",
    " -> A", rfl⟩⟩

/-! ## C3: root resolution -/

/-- C3 counterexample: on a topology where every node has a parent (a
3-cycle), `OpsSpec::validate_and_build` succeeds with an empty root set and a
non-empty node set — the empty root set is returned silently, with no
cycle-or-structure error. -/
theorem all_parents_spec_empty_roots :
    ∃ v, OpsSpec.validate_and_build all_parents_spec = .ok v ∧
      v.roots = [] ∧ v.nodes ≠ [] := by
  refine ⟨_, rfl, rfl, by decide⟩

/-! ## Inversion of the successful validation and aggregation paths -/

theorem validate_and_build_ok {s : OpsSpec} {v : ValidatedOps}
    (h : s.validate_and_build = .ok v) :
    ∃ nodes fpn rules_out,
      build_nodes s.nodes [] = .ok nodes ∧ nodes ≠ [] ∧
      build_fp_maps nodes [] [] = .ok fpn ∧
      check_parents_exist nodes nodes = .ok () ∧
      validate_rules fpn s.rules [] = .ok rules_out ∧
      check_fps_in_rules (rule_fps rules_out) nodes = .ok () ∧
      v = { nodes := nodes, roots := compute_roots nodes, rules := rules_out,
            fingerprint_to_node := fpn } := by
  unfold OpsSpec.validate_and_build at h
  split at h
  · simp at h
  · rename_i nodes heq1
    split at h
    · simp at h
    · rename_i hnil
      split at h
      · simp at h
      · rename_i fpn heq2
        split at h
        · simp at h
        · rename_i u heq3
          split at h
          · simp at h
          · rename_i rules_out heq4
            split at h
            · simp at h
            · rename_i u2 heq5
              cases u
              cases u2
              exact ⟨nodes, fpn, rules_out, heq1, hnil, heq2, heq3, heq4, heq5,
                (Except.ok.inj h).symm⟩

theorem build_report_data_ok {nodes_spec : List (String × NodeSpec)} {roots0 : List String}
    {rules_spec : List RuleSpec} {fpn : List (String × String)} {time : TimeIndex}
    {memory : MemoryIndex} {r : ReportData} {w : List String}
    (h : build_report_data nodes_spec roots0 rules_spec fpn time memory = .ok (r, w)) :
    ∃ views tot owner,
      check_cross_source time memory = .ok () ∧
      check_ownership nodes_spec [] = .ok owner ∧
      process_nodes time memory nodes_spec nodes_spec [] ⟨0, 0, 0, 0⟩ [] =
        .ok (views, tot, w) ∧
      r = { roots := roots_set nodes_spec roots0,
            nodes := views,
            rules := build_rule_views rules_spec nodes_spec fpn,
            totals := { names := nodes_spec.length,
                        operators_in_time := time.length,
                        operators_mapped := tot.operators_mapped,
                        total_mapped_ms := tot.total_mapped_ms,
                        total_mapped_activations := tot.total_mapped_activations,
                        total_batched_in := tot.total_batched_in } } := by
  unfold build_report_data at h
  split at h
  · simp at h
  · rename_i u heq1
    split at h
    · simp at h
    · rename_i owner heq2
      split at h
      · simp at h
      · rename_i res views tot w2 heq3
        cases u
        have hp := Prod.mk.inj (Except.ok.inj h)
        exact ⟨views, tot, owner, heq1, heq2, hp.2 ▸ heq3, hp.1.symm⟩

/-- C3 amended: whenever validation succeeds, the root set equals the sorted,
deduplicated list of ids with an empty (normalised) parent list — the
ops.json schema declares no explicit roots, and `build_report_data` unions
the roots it is handed with the nodes lacking a primary parent. However the
root set is not checked for emptiness by the live pipeline: an
all-nodes-have-parents topology validates successfully with an empty root
set (see the counterexample); only `DagSpec::validate_and_build` raises the
empty-roots cycle-or-structure error. -/
theorem c3_roots_resolution :
    (∀ (s : OpsSpec) (v : ValidatedOps), s.validate_and_build = .ok v →
      v.roots = sortDedupD natLtB ((v.nodes.filter (fun x => x.2.parents = [])).map (·.1)) ∧
      ∀ i : Nat, (i ∈ v.roots ↔ ∃ sp, (i, sp) ∈ v.nodes ∧ sp.parents = [])) ∧
    (∀ (d : DagSpec) (nd : NameDag), d.validate_and_build = .ok nd → nd.roots ≠ []) ∧
    (∀ (nodes_spec : List (String × NodeSpec)) (roots0 : List String)
      (rules_spec : List RuleSpec) (fpn : List (String × String)) (time : TimeIndex)
      (memory : MemoryIndex) (r : ReportData) (w : List String),
      build_report_data nodes_spec roots0 rules_spec fpn time memory = .ok (r, w) →
      r.roots = roots_set nodes_spec roots0 ∧
      ∀ n : String, (n ∈ r.roots ↔
        n ∈ roots0 ∨ ∃ sp, (n, sp) ∈ nodes_spec ∧ primary_parent_of sp = none)) := by
  refine ⟨?_, ?_, ?_⟩
  · intro s v hok
    obtain ⟨nodes, fpn, rules_out, _, _, _, _, _, _, hv⟩ := validate_and_build_ok hok
    subst hv
    refine ⟨rfl, ?_⟩
    intro i
    show i ∈ compute_roots nodes ↔ _
    unfold compute_roots
    rw [mem_sortDedupD]
    simp only [List.mem_map, List.mem_filter]
    constructor
    · rintro ⟨⟨j, sp⟩, ⟨hmem, hpar⟩, rfl⟩
      exact ⟨sp, hmem, by simpa using hpar⟩
    · rintro ⟨sp, hmem, hpar⟩
      exact ⟨(i, sp), ⟨hmem, by simpa using hpar⟩, rfl⟩
  · intro d nd hok
    unfold DagSpec.validate_and_build at hok
    split at hok
    · simp at hok
    · rename_i nodes heq1
      split at hok
      · simp at hok
      · rename_i hnil
        split at hok
        · simp at hok
        · rename_i adj children parents heq2
          split at hok
          · simp at hok
          · rename_i roots heq3
            split at hok
            · simp at hok
            · rename_i hroots
              split at hok
              · simp at hok
              · rename_i m heq4
                have := Except.ok.inj hok
                subst this
                exact hroots
  · intro nodes_spec roots0 rules_spec fpn time memory r w hok
    obtain ⟨views, tot, owner, _, _, _, hr⟩ := build_report_data_ok hok
    subst hr
    refine ⟨rfl, ?_⟩
    intro n
    show n ∈ roots_set nodes_spec roots0 ↔ _
    unfold roots_set
    rw [mem_sortDedupD]
    simp only [List.mem_append, List.mem_map, List.mem_filter]
    constructor
    · rintro (h0 | ⟨⟨m, sp⟩, ⟨hmem, hpp⟩, rfl⟩)
      · exact Or.inl h0
      · exact Or.inr ⟨sp, hmem, by simpa using hpp⟩
    · rintro (h0 | ⟨sp, hmem, hpp⟩)
      · exact Or.inl h0
      · exact Or.inr ⟨(n, sp), ⟨hmem, by simpa using hpp⟩, rfl⟩

/-- Witness for C3 amended, instantiating all three components: the cyclic
ops topology (empty roots, formula still holds), the one-node DAG, and a
two-node aggregation run. -/
theorem c3_roots_resolution_witness :
    (∃ v, OpsSpec.validate_and_build all_parents_spec = .ok v ∧
      v.roots = sortDedupD natLtB ((v.nodes.filter (fun x => x.2.parents = [])).map (·.1)) ∧
      ((0 : Nat) ∈ v.roots ↔ ∃ sp, ((0 : Nat), sp) ∈ v.nodes ∧ sp.parents = [])) ∧
    (∃ nd, DagSpec.validate_and_build one_dag_spec = .ok nd ∧ nd.roots ≠ []) ∧
    (∃ r w, build_report_data [("0", w_node_a), ("1", w_node_b)] ["0"] [] [] w_time w_memory
        = .ok (r, w) ∧
      r.roots = roots_set [("0", w_node_a), ("1", w_node_b)] ["0"] ∧
      ("0" ∈ r.roots ↔ "0" ∈ ["0"] ∨
        ∃ sp, ("0", sp) ∈ [("0", w_node_a), ("1", w_node_b)] ∧ primary_parent_of sp = none)) := by
  refine ⟨⟨_, rfl, ?_⟩, ⟨_, rfl, ?_⟩, ⟨_, _, rfl, ?_⟩⟩
  · obtain ⟨h1, h2⟩ := c3_roots_resolution.1 all_parents_spec _ rfl
    exact ⟨h1, h2 0⟩
  · exact c3_roots_resolution.2.1 one_dag_spec _ rfl
  · obtain ⟨h1, h2⟩ := c3_roots_resolution.2.2 [("0", w_node_a), ("1", w_node_b)] ["0"]
      [] [] w_time w_memory _ _ rfl
    exact ⟨h1, h2 "0"⟩

/-! ## C4: cross-source op_name consistency -/

theorem check_cross_source_ok {time : TimeIndex} {memory : MemoryIndex}
    (h : ∀ e ∈ memory, ∀ t ∈ time, e.1 = t.1 → (t.2).op_name = (e.2).op_name) :
    check_cross_source time memory = .ok () := by
  induction memory with
  | nil => rfl
  | cons e rest ih =>
    obtain ⟨a0, mr0⟩ := e
    cases ht0 : alookup time a0 with
    | none =>
      show check_cross_source time ((a0, mr0) :: rest) = .ok ()
      simp only [check_cross_source, ht0]
      exact ih (fun e he t htm heq => h e (List.mem_cons_of_mem _ he) t htm heq)
    | some tr0 =>
      have heq : tr0.op_name = mr0.op_name :=
        h (a0, mr0) (List.mem_cons_self _ _) (a0, tr0) (alookup_mem ht0) rfl
      show check_cross_source time ((a0, mr0) :: rest) = .ok ()
      simp only [check_cross_source, ht0]
      rw [if_neg (by simp [heq])]
      exact ih (fun e he t htm heq => h e (List.mem_cons_of_mem _ he) t htm heq)

theorem check_cross_source_error {time : TimeIndex} {memory : MemoryIndex}
    (hnd : (memory.map Prod.fst).Nodup) {a : List Nat} {tr : TimeRow} {mr : MemoryRow}
    (ht : alookup time a = some tr) (hm : alookup memory a = some mr)
    (hne : tr.op_name ≠ mr.op_name) :
    ∃ a' tr' mr', alookup time a' = some tr' ∧ alookup memory a' = some mr' ∧
      tr'.op_name ≠ mr'.op_name ∧
      check_cross_source time memory =
        .error (error_message (mismatch_msg a' tr'.op_name mr'.op_name)) := by
  induction memory with
  | nil => simp [alookup] at hm
  | cons e rest ih =>
    obtain ⟨a0, mr0⟩ := e
    simp only [List.map_cons, List.nodup_cons] at hnd
    cases ht0 : alookup time a0 with
    | some tr0 =>
      by_cases hne0 : tr0.op_name = mr0.op_name
      · -- the head entry agrees, so the offending address is in the tail
        have hne_a : ¬ a0 = a := by
          rintro rfl
          have : mr = mr0 := by
            have : alookup ((a0, mr0) :: rest) a0 = some mr0 := by simp [alookup]
            rw [hm] at this
            exact Option.some.inj this
          subst this
          rw [ht0] at ht
          exact hne ((Option.some.inj ht) ▸ hne0)
        have hm' : alookup rest a = some mr := by
          have : alookup ((a0, mr0) :: rest) a = alookup rest a := by
            simp [alookup, hne_a]
          rw [← this, hm]
        obtain ⟨a', tr', mr', ht'', hm'', hne'', herr⟩ := ih hnd.2 hm'
        have ha' : ¬ a0 = a' := by
          rintro rfl
          exact hnd.1 (List.mem_map.mpr ⟨(a0, mr'), alookup_mem hm'', rfl⟩)
        refine ⟨a', tr', mr', ht'', ?_, hne'', ?_⟩
        · simp [alookup, ha', hm'']
        · show check_cross_source time ((a0, mr0) :: rest) = _
          simp only [check_cross_source, ht0]
          rw [if_neg (by simp [hne0])]
          exact herr
      · refine ⟨a0, tr0, mr0, ht0, by simp [alookup], hne0, ?_⟩
        show check_cross_source time ((a0, mr0) :: rest) = _
        simp only [check_cross_source, ht0]
        rw [if_pos (by simpa using hne0)]
    | none =>
      have hne_a : ¬ a0 = a := by
        rintro rfl
        have : alookup ((a0, mr0) :: rest) a0 = some mr0 := by simp [alookup]
        rw [hm] at this
        rw [ht0] at ht
        exact Option.noConfusion ht
      have hm' : alookup rest a = some mr := by
        have : alookup ((a0, mr0) :: rest) a = alookup rest a := by
          simp [alookup, hne_a]
        rw [← this, hm]
      obtain ⟨a', tr', mr', ht'', hm'', hne'', herr⟩ := ih hnd.2 hm'
      have ha' : ¬ a0 = a' := by
        rintro rfl
        exact hnd.1 (List.mem_map.mpr ⟨(a0, mr'), alookup_mem hm'', rfl⟩)
      refine ⟨a', tr', mr', ht'', ?_, hne'', ?_⟩
      · simp [alookup, ha', hm'']
      · show check_cross_source time ((a0, mr0) :: rest) = _
        simp only [check_cross_source, ht0]
        exact herr

/-- C4: for every address appearing in both metric sources with textually
different `opName`s, `build_report_data` fails with the fatal consistency
error reporting a mismatch (the first one the phase-0 scan meets, itself a
shared-address mismatch); and when every shared address agrees, the phase-0
consistency check passes. -/
theorem c4_cross_source_consistency (nodes_spec : List (String × NodeSpec))
    (roots0 : List String) (rules_spec : List RuleSpec) (fpn : List (String × String))
    (time : TimeIndex) (memory : MemoryIndex)
    (hnd : (memory.map Prod.fst).Nodup) :
    (∀ (a : List Nat) (tr : TimeRow) (mr : MemoryRow),
      alookup time a = some tr → alookup memory a = some mr →
      tr.op_name ≠ mr.op_name →
      ∃ a' tr' mr', alookup time a' = some tr' ∧ alookup memory a' = some mr' ∧
        tr'.op_name ≠ mr'.op_name ∧
        build_report_data nodes_spec roots0 rules_spec fpn time memory =
          .error (error_message (mismatch_msg a' tr'.op_name mr'.op_name))) ∧
    ((∀ e ∈ memory, ∀ t ∈ time, e.1 = t.1 → (t.2).op_name = (e.2).op_name) →
      check_cross_source time memory = .ok ()) := by
  constructor
  · intro a tr mr ht hm hne
    obtain ⟨a', tr', mr', ht', hm', hne', herr⟩ := check_cross_source_error hnd ht hm hne
    refine ⟨a', tr', mr', ht', hm', hne', ?_⟩
    unfold build_report_data
    rw [herr]
  · exact check_cross_source_ok

/-- Witness for C4: the mismatching memory log (address [2] named "Wrong"
against "Op2") makes aggregation fail; the agreeing memory log passes the
check. -/
theorem c4_cross_source_consistency_witness :
    (∃ a' tr' mr', alookup w_time a' = some tr' ∧ alookup w_memory_bad a' = some mr' ∧
      tr'.op_name ≠ mr'.op_name ∧
      build_report_data [("0", w_node_a), ("1", w_node_b)] ["0"] [] [] w_time w_memory_bad =
        .error (error_message (mismatch_msg a' tr'.op_name mr'.op_name))) ∧
    check_cross_source w_time w_memory = .ok () :=
  ⟨(c4_cross_source_consistency [("0", w_node_a), ("1", w_node_b)] ["0"] [] []
      w_time w_memory_bad (by decide)).1 [2] ⟨1, 7, "Op2"⟩ ⟨100, 2, 3, 4, 5, "Wrong"⟩
      rfl rfl (by decide),
   (c4_cross_source_consistency [("0", w_node_a), ("1", w_node_b)] ["0"] [] []
      w_time w_memory (by decide)).2 (by decide)⟩

/-! ## C2: at-most-one-owner per address -/

theorem claim_addrs_eq_fold (name : String) (as : List (List Nat))
    (owner : List (List Nat × String)) :
    claim_addrs name as owner = claim_fold (as.map (fun a => (a, name))) owner := by
  induction as generalizing owner with
  | nil => rfl
  | cons a rest ih =>
    simp only [List.map_cons, claim_addrs, claim_fold]
    cases alookup owner a with
    | some prev => rfl
    | none => exact ih _

theorem claim_fold_append (xs ys : List (List Nat × String))
    (owner : List (List Nat × String)) :
    claim_fold (xs ++ ys) owner =
      match claim_fold xs owner with
      | .error e => .error e
      | .ok o2 => claim_fold ys o2 := by
  induction xs generalizing owner with
  | nil => rfl
  | cons p rest ih =>
    obtain ⟨a, n⟩ := p
    simp only [List.cons_append, claim_fold]
    cases alookup owner a with
    | some prev => rfl
    | none => exact ih _

theorem check_ownership_eq_fold (l : List (String × NodeSpec))
    (owner : List (List Nat × String)) :
    check_ownership l owner = claim_fold (node_claims l) owner := by
  induction l generalizing owner with
  | nil => rfl
  | cons p rest ih =>
    obtain ⟨name, sp⟩ := p
    have hnc : node_claims ((name, sp) :: rest) =
        sp.operators.map (fun a => (a, name)) ++ node_claims rest := by
      simp [node_claims]
    rw [hnc, claim_fold_append]
    simp only [check_ownership]
    rw [claim_addrs_eq_fold]
    cases claim_fold (sp.operators.map (fun a => (a, name))) owner with
    | error e => rfl
    | ok o2 => exact ih _

theorem claim_fold_ok : ∀ (cs owner : List (List Nat × String)),
    ((owner ++ cs).map Prod.fst).Nodup → ∃ o2, claim_fold cs owner = .ok o2 := by
  intro cs
  induction cs with
  | nil => exact fun owner _ => ⟨owner, rfl⟩
  | cons p rest ih =>
    obtain ⟨a, n⟩ := p
    intro owner hnd
    have hmid : ((owner ++ [(a, n)]) ++ rest).map Prod.fst = ((owner ++ (a, n) :: rest)).map Prod.fst := by
      rw [List.append_assoc, List.singleton_append]
    have hnone : alookup owner a = none := by
      rw [alookup_eq_none_iff]
      intro hmem
      rw [List.map_append, List.map_cons] at hnd
      have := (List.nodup_cons.mp (List.nodup_middle.mp hnd)).1
      rw [List.mem_append] at this
      exact this (Or.inl hmem)
    simp only [claim_fold, hnone]
    exact ih (owner ++ [(a, n)]) (by rw [hmid]; exact hnd)

theorem claim_fold_error (P : List Nat → String → Prop) :
    ∀ (cs owner : List (List Nat × String)),
    (∀ p ∈ owner, P p.1 p.2) → (∀ p ∈ cs, P p.1 p.2) →
    ((owner.map Prod.fst).Nodup) →
    (∀ a, (((owner ++ cs).filter (fun x => x.1 = a)).map Prod.snd).Nodup) →
    ¬ (((owner ++ cs).map Prod.fst).Nodup) →
    ∃ a m1 m2, m1 ≠ m2 ∧ P a m1 ∧ P a m2 ∧
      claim_fold cs owner = .error (error_message (owner_msg a m1 m2)) := by
  intro cs
  induction cs with
  | nil =>
    intro owner _ _ h3 _ h5
    exact absurd (by simpa using h3) (by simpa using h5)
  | cons p rest ih =>
    obtain ⟨a0, n0⟩ := p
    intro owner hPo hPc hOnd hclaim hdup
    cases hl : alookup owner a0 with
    | some prev =>
      have hprevmem : (a0, prev) ∈ owner := alookup_mem hl
      have hpne : prev ≠ n0 := by
        have h := hclaim a0
        rw [List.filter_append, List.map_append] at h
        have hdisj := List.disjoint_of_nodup_append h
        intro heq
        refine @hdisj prev ?_ ?_
        · exact List.mem_map.mpr ⟨(a0, prev), List.mem_filter.mpr ⟨hprevmem, by simp⟩, rfl⟩
        · rw [heq]
          refine List.mem_map.mpr ⟨(a0, n0), List.mem_filter.mpr ⟨List.mem_cons_self _ _, by simp⟩, rfl⟩
      exact ⟨a0, prev, n0, hpne, hPo _ hprevmem, hPc _ (List.mem_cons_self _ _),
        by simp only [claim_fold, hl]⟩
    | none =>
      simp only [claim_fold, hl]
      have hmid : (owner ++ [(a0, n0)]) ++ rest = owner ++ (a0, n0) :: rest := by
        rw [List.append_assoc, List.singleton_append]
      have hOnd' : ((owner ++ [(a0, n0)]).map Prod.fst).Nodup := by
        rw [List.map_append]
        refine List.Nodup.append hOnd (by simp) ?_
        intro x hx hx2
        simp only [List.map_cons, List.map_nil, List.mem_singleton] at hx2
        subst hx2
        exact (alookup_eq_none_iff.mp hl) hx
      obtain ⟨a, m1, m2, hmne, hP1, hP2, herr⟩ := ih (owner ++ [(a0, n0)])
        (by
          intro q hq
          rw [List.mem_append] at hq
          rcases hq with hq | hq
          · exact hPo _ hq
          · simp only [List.mem_singleton] at hq
            subst hq
            exact hPc _ (List.mem_cons_self _ _))
        (fun q hq => hPc _ (List.mem_cons_of_mem _ hq))
        hOnd'
        (by intro a; rw [hmid]; exact hclaim a)
        (by rw [hmid]; exact hdup)
      exact ⟨a, m1, m2, hmne, hP1, hP2, herr⟩

theorem node_claims_mem {l : List (String × NodeSpec)} {a : List Nat} {n : String} :
    (a, n) ∈ node_claims l ↔ ∃ sp, (n, sp) ∈ l ∧ a ∈ sp.operators := by
  simp only [node_claims, List.mem_flatMap, List.mem_map]
  constructor
  · rintro ⟨⟨m, sp⟩, hmem, a', ha', heq⟩
    obtain ⟨he1, he2⟩ := Prod.mk.inj heq
    subst he1
    subst he2
    exact ⟨sp, hmem, ha'⟩
  · rintro ⟨sp, hmem, ha⟩
    exact ⟨(n, sp), hmem, a, ha, rfl⟩

theorem filter_eq_of_nodup {l : List (List Nat)} (hnd : l.Nodup) (a : List Nat) :
    l.filter (fun x => x = a) = if a ∈ l then [a] else [] := by
  induction l with
  | nil => simp
  | cons x xs ih =>
    simp only [List.nodup_cons] at hnd
    by_cases hx : x = a
    · subst hx
      rw [if_pos (List.mem_cons_self _ _)]
      have : xs.filter (fun y => y = x) = [] := by
        rw [ih hnd.2, if_neg hnd.1]
      simp [List.filter_cons, this]
    · have : (x :: xs).filter (fun y => y = a) = xs.filter (fun y => y = a) := by
        simp [List.filter_cons, hx]
      rw [this, ih hnd.2]
      by_cases hmem : a ∈ xs
      · rw [if_pos hmem, if_pos (List.mem_cons_of_mem _ hmem)]
      · rw [if_neg hmem, if_neg (by
          intro hc
          rcases List.mem_cons.mp hc with hc | hc
          · exact hx hc.symm
          · exact hmem hc)]

theorem map_pair_filter (ops : List (List Nat)) (name : String) (a : List Nat) :
    (ops.map (fun a' => (a', name))).filter (fun x => x.1 = a) =
      (ops.filter (fun x => x = a)).map (fun a' => (a', name)) := by
  induction ops with
  | nil => rfl
  | cons x xs ih =>
    by_cases hx : x = a
    · subst hx
      simp [List.filter_cons, ih]
    · simp [List.filter_cons, hx, ih]

theorem node_claims_claimants_nodup {l : List (String × NodeSpec)}
    (hkeys : (l.map Prod.fst).Nodup) (hops : ∀ p ∈ l, (p.2).operators.Nodup)
    (a : List Nat) :
    (((node_claims l).filter (fun x => x.1 = a)).map Prod.snd).Nodup := by
  induction l with
  | nil => simp [node_claims]
  | cons p rest ih =>
    obtain ⟨name, sp⟩ := p
    simp only [List.map_cons, List.nodup_cons] at hkeys
    have hsplit : node_claims ((name, sp) :: rest) =
        sp.operators.map (fun a' => (a', name)) ++ node_claims rest := by
      simp [node_claims]
    rw [hsplit, List.filter_append, List.map_append]
    refine List.Nodup.append ?_ (ih hkeys.2 (fun q hq => hops _ (List.mem_cons_of_mem _ hq))) ?_
    · rw [map_pair_filter, filter_eq_of_nodup (hops _ (List.mem_cons_self _ _)) a]
      by_cases hmem : a ∈ sp.operators
      · rw [if_pos hmem]
        simp
      · rw [if_neg hmem]
        simp
    · intro x hx1 hx2
      have hxname : x = name := by
        rw [map_pair_filter] at hx1
        rcases List.mem_map.mp hx1 with ⟨q, hq, rfl⟩
        rcases List.mem_map.mp hq with ⟨a', _, rfl⟩
        rfl
      subst hxname
      rcases List.mem_map.mp hx2 with ⟨⟨a', m⟩, hqf, heq⟩
      simp only at heq
      subst heq
      have hq := List.mem_filter.mp hqf
      obtain ⟨sp', hmem', -⟩ := node_claims_mem.mp hq.1
      exact hkeys.1 (List.mem_map.mpr ⟨(m, sp'), hmem', rfl⟩)

/-- C2: two distinct nodes both claiming the same operator address make
`build_report_data` fail with the fatal ownership error naming two distinct
claiming node names and the address; hence a successfully produced report
has at most one owner per address. -/
theorem c2_addr_ownership (nodes_spec : List (String × NodeSpec)) (roots0 : List String)
    (rules_spec : List RuleSpec) (fpn : List (String × String)) (time : TimeIndex)
    (memory : MemoryIndex)
    (hkeys : (nodes_spec.map Prod.fst).Nodup)
    (hops : ∀ p ∈ nodes_spec, (p.2).operators.Nodup)
    (hnomis : ∀ e ∈ memory, ∀ t ∈ time, e.1 = t.1 → (t.2).op_name = (e.2).op_name)
    (n1 n2 : String) (s1 s2 : NodeSpec) (a : List Nat)
    (h1 : (n1, s1) ∈ nodes_spec) (h2 : (n2, s2) ∈ nodes_spec) (hne : n1 ≠ n2)
    (ha1 : a ∈ s1.operators) (ha2 : a ∈ s2.operators) :
    ∃ a' m1 m2, m1 ≠ m2 ∧
      (∃ t1, (m1, t1) ∈ nodes_spec ∧ a' ∈ t1.operators) ∧
      (∃ t2, (m2, t2) ∈ nodes_spec ∧ a' ∈ t2.operators) ∧
      build_report_data nodes_spec roots0 rules_spec fpn time memory =
        .error (error_message (owner_msg a' m1 m2)) := by
  have hphase0 := check_cross_source_ok hnomis
  have hdup : ¬ ((node_claims nodes_spec).map Prod.fst).Nodup := by
    intro hnd
    have hm1 : (a, n1) ∈ node_claims nodes_spec := node_claims_mem.mpr ⟨s1, h1, ha1⟩
    have hm2 : (a, n2) ∈ node_claims nodes_spec := node_claims_mem.mpr ⟨s2, h2, ha2⟩
    exact hne (nodup_keys_eq hnd hm1 hm2)
  obtain ⟨a', m1, m2, hmne, hP1, hP2, herr⟩ :=
    claim_fold_error (fun a n => ∃ t, (n, t) ∈ nodes_spec ∧ a ∈ t.operators)
      (node_claims nodes_spec) []
      (by simp)
      (by
        intro q hq
        obtain ⟨sp, hmem, ha⟩ := node_claims_mem.mp (by
          show (q.1, q.2) ∈ node_claims nodes_spec
          simpa using hq)
        exact ⟨sp, hmem, ha⟩)
      (by simp)
      (by simpa using node_claims_claimants_nodup hkeys hops)
      (by simpa using hdup)
  refine ⟨a', m1, m2, hmne, hP1, hP2, ?_⟩
  simp only [build_report_data, hphase0, check_ownership_eq_fold, herr]

/-- Witness for C2: nodes "0" and "1" both claim address [0]. -/
theorem c2_addr_ownership_witness :
    ∃ a' m1 m2, m1 ≠ m2 ∧
      (∃ t1, (m1, t1) ∈ [("0", w_node_a), ("1", w_node_dup)] ∧ a' ∈ t1.operators) ∧
      (∃ t2, (m2, t2) ∈ [("0", w_node_a), ("1", w_node_dup)] ∧ a' ∈ t2.operators) ∧
      build_report_data [("0", w_node_a), ("1", w_node_dup)] ["0"] [] [] w_time w_memory =
        .error (error_message (owner_msg a' m1 m2)) :=
  c2_addr_ownership [("0", w_node_a), ("1", w_node_dup)] ["0"] [] [] w_time w_memory
    (by decide) (by decide) (by decide) "0" "1" w_node_a w_node_dup [0]
    (by decide) (by decide) (by decide) (by decide) (by decide)

/-! ## Phase-3 characterization -/

theorem process_ops_char {time : TimeIndex} {memory : MemoryIndex} {name : String} :
    ∀ {addrs : List (List Nat)} {acc : OpAcc} {tot : AggTotals} {w : List String}
    {res : OpAcc × AggTotals × List String},
    process_ops time memory name addrs acc tot w = .ok res →
    res = (acc_after time memory acc addrs,
           tot_add tot (node_tot_delta time memory addrs),
           w ++ node_warnings time name addrs) := by
  intro addrs
  induction addrs with
  | nil =>
    intro acc tot w res h
    have hres : res = (acc, tot, w) := (Except.ok.inj h).symm
    subst hres
    refine Prod.ext ?_ (Prod.ext ?_ ?_)
    · cases acc
      simp [acc_after]
    · cases tot
      simp [tot_add, node_tot_delta]
    · simp [node_warnings]
  | cons a rest ih =>
    intro acc tot w res h
    simp only [process_ops] at h
    cases htl : alookup time a with
    | some tr =>
      rw [htl] at h
      simp only at h
      cases hml : alookup memory a with
      | some mr =>
        rw [hml] at h
        simp only at h
        split at h
        · simp at h
        · rename_i hcond
          have hres := ih h
          subst hres
          refine Prod.ext ?_ (Prod.ext ?_ ?_)
          · simp only [acc_after, List.map_cons, List.sum_cons, List.any_cons]
            simp [op_view_of, time_ms, time_act, mem_field, htl, hml, add_assoc,
              List.append_assoc, Bool.or_assoc]
          · simp only [tot_add, node_tot_delta, List.filterMap_cons, htl, hml,
              List.filter_cons]
            simp [add_assoc, add_comm, add_left_comm, List.sum_cons, htl]
          · simp [node_warnings, List.filterMap_cons, htl]
      | none =>
        rw [hml] at h
        simp only at h
        have hres := ih h
        subst hres
        refine Prod.ext ?_ (Prod.ext ?_ ?_)
        · simp only [acc_after, List.map_cons, List.sum_cons, List.any_cons]
          simp [op_view_of, time_ms, time_act, mem_field, htl, hml, add_assoc,
            List.append_assoc, Bool.or_assoc]
        · simp only [tot_add, node_tot_delta, List.filterMap_cons, htl, hml,
            List.filter_cons]
          simp [add_assoc, add_comm, add_left_comm, List.sum_cons, htl]
        · simp [node_warnings, List.filterMap_cons, htl]
    | none =>
      rw [htl] at h
      simp only at h
      cases hml : alookup memory a with
      | some mr =>
        rw [hml] at h
        simp only at h
        split at h
        · simp at h
        · rename_i hcond
          have hres := ih h
          subst hres
          refine Prod.ext ?_ (Prod.ext ?_ ?_)
          · simp only [acc_after, List.map_cons, List.sum_cons, List.any_cons]
            simp [op_view_of, time_ms, time_act, mem_field, htl, hml, add_assoc,
              List.append_assoc, Bool.or_assoc]
          · simp only [tot_add, node_tot_delta, List.filterMap_cons, htl, hml,
              List.filter_cons]
            simp [add_assoc, add_comm, add_left_comm, List.sum_cons, htl]
          · simp [node_warnings, List.filterMap_cons, htl]
      | none =>
        rw [hml] at h
        simp only at h
        have hres := ih h
        subst hres
        refine Prod.ext ?_ (Prod.ext ?_ ?_)
        · simp only [acc_after, List.map_cons, List.sum_cons, List.any_cons]
          simp [op_view_of, time_ms, time_act, mem_field, htl, hml, add_assoc,
            List.append_assoc, Bool.or_assoc]
        · simp only [tot_add, node_tot_delta, List.filterMap_cons, htl, hml,
            List.filter_cons]
          simp [add_assoc, add_comm, add_left_comm, List.sum_cons, htl]
        · simp [node_warnings, List.filterMap_cons, htl]

theorem process_ops_exists {time : TimeIndex} {memory : MemoryIndex} {name : String}
    (hnomis : ∀ e ∈ memory, ∀ t ∈ time, e.1 = t.1 → (t.2).op_name = (e.2).op_name) :
    ∀ (addrs : List (List Nat)) (acc : OpAcc) (tot : AggTotals) (w : List String),
    ∃ res, process_ops time memory name addrs acc tot w = .ok res := by
  intro addrs
  induction addrs with
  | nil => exact fun acc tot w => ⟨(acc, tot, w), rfl⟩
  | cons a rest ih =>
    intro acc tot w
    simp only [process_ops]
    cases htl : alookup time a with
    | some tr =>
      simp only
      cases hml : alookup memory a with
      | some mr =>
        simp only
        have hcond : ¬ (tr.op_name ≠ "" ∧ mr.op_name ≠ tr.op_name) := by
          rintro ⟨h1, h2⟩
          exact h2 (hnomis (a, mr) (alookup_mem hml) (a, tr) (alookup_mem htl) rfl).symm
        rw [if_neg hcond]
        exact ih _ _ _
      | none =>
        simp only
        exact ih _ _ _
    | none =>
      simp only
      cases hml : alookup memory a with
      | some mr =>
        simp only
        rw [if_neg (by simp)]
        exact ih _ _ _
      | none =>
        simp only
        exact ih _ _ _

theorem tot_add_assoc (x y z : AggTotals) :
    tot_add (tot_add x y) z = tot_add x (tot_add y z) := by
  cases x
  cases y
  cases z
  simp [tot_add, add_assoc]

theorem process_nodes_char {time : TimeIndex} {memory : MemoryIndex}
    {all : List (String × NodeSpec)} :
    ∀ {l : List (String × NodeSpec)} {views : List (String × NameNodeView)}
    {tot : AggTotals} {w : List String}
    {res : List (String × NameNodeView) × AggTotals × List String},
    process_nodes time memory all l views tot w = .ok res →
    res = (views ++ l.map (fun p => (p.1, node_view_of all p.1 p.2
             (acc_after time memory OpAcc.init p.2.operators))),
           tot_add tot (nodes_tot_delta time memory l),
           w ++ l.flatMap (fun p => node_warnings time p.1 p.2.operators)) := by
  intro l
  induction l with
  | nil =>
    intro views tot w res h
    have hres := (Except.ok.inj h).symm
    subst hres
    refine Prod.ext ?_ (Prod.ext ?_ ?_)
    · simp
    · cases tot
      simp [nodes_tot_delta, tot_add]
    · simp
  | cons p rest ih =>
    intro views tot w res h
    obtain ⟨name, sp⟩ := p
    simp only [process_nodes] at h
    cases hpo : process_ops time memory name sp.operators OpAcc.init tot w with
    | error e =>
      rw [hpo] at h
      simp at h
    | ok r3 =>
      rw [hpo] at h
      simp only at h
      obtain ⟨acc1, tot1, w1⟩ := r3
      have hchar := process_ops_char hpo
      obtain ⟨hacc, hrest⟩ := Prod.mk.inj hchar
      obtain ⟨htot, hw⟩ := Prod.mk.inj hrest
      subst hacc
      subst htot
      subst hw
      have hres := ih h
      subst hres
      refine Prod.ext ?_ (Prod.ext ?_ ?_)
      · simp [List.append_assoc]
      · show tot_add (tot_add tot (node_tot_delta time memory sp.operators))
            (nodes_tot_delta time memory rest) = _
        rw [tot_add_assoc]
        rfl
      · simp [List.append_assoc]

theorem process_nodes_exists {time : TimeIndex} {memory : MemoryIndex}
    {all : List (String × NodeSpec)}
    (hnomis : ∀ e ∈ memory, ∀ t ∈ time, e.1 = t.1 → (t.2).op_name = (e.2).op_name) :
    ∀ (l : List (String × NodeSpec)) (views : List (String × NameNodeView))
    (tot : AggTotals) (w : List String),
    ∃ res, process_nodes time memory all l views tot w = .ok res := by
  intro l
  induction l with
  | nil => exact fun views tot w => ⟨(views, tot, w), rfl⟩
  | cons p rest ih =>
    intro views tot w
    obtain ⟨name, sp⟩ := p
    simp only [process_nodes]
    obtain ⟨⟨acc1, tot1, w1⟩, hpo⟩ := process_ops_exists hnomis sp.operators OpAcc.init tot w
    rw [hpo]
    exact ih _ _ _

theorem acc_after_init (time : TimeIndex) (memory : MemoryIndex) (addrs : List (List Nat)) :
    acc_after time memory OpAcc.init addrs = pure_op_acc time memory addrs := by
  simp [acc_after, pure_op_acc, OpAcc.init]

theorem alookup_map_of_mem {β : Type} {l : List (String × NodeSpec)}
    (hkeys : (l.map Prod.fst).Nodup) {name : String} {sp : NodeSpec}
    (hmem : (name, sp) ∈ l) (f : String × NodeSpec → β) :
    alookup (l.map (fun p => (p.1, f p))) name = some (f (name, sp)) := by
  have hnd2 : ((l.map (fun p => (p.1, f p))).map Prod.fst).Nodup := by
    rw [List.map_map]
    have : (Prod.fst ∘ fun p : String × NodeSpec => (p.1, f p)) = Prod.fst := by
      funext p
      rfl
    rw [this]
    exact hkeys
  exact alookup_of_mem_nodup hnd2
    (List.mem_map.mpr ⟨(name, sp), hmem, rfl⟩)

/-! ## C6: per-node aggregation sums -/

/-- C6: in every successfully produced report, a node's
`self_total_active_ms` is the sum over its operator addresses of the time
rows' `total_active_ms` (0 for addresses absent from the time log), and
`self_activations` is the sum of those rows' activation counts. -/
theorem c6_node_aggregation (nodes_spec : List (String × NodeSpec)) (roots0 : List String)
    (rules_spec : List RuleSpec) (fpn : List (String × String)) (time : TimeIndex)
    (memory : MemoryIndex) (r : ReportData) (w : List String)
    (hkeys : (nodes_spec.map Prod.fst).Nodup)
    (hok : build_report_data nodes_spec roots0 rules_spec fpn time memory = .ok (r, w))
    (name : String) (sp : NodeSpec) (hmem : (name, sp) ∈ nodes_spec) :
    ∃ nv, alookup r.nodes name = some nv ∧
      nv.self_total_active_ms = (sp.operators.map (time_ms time)).sum ∧
      nv.self_activations = (sp.operators.map (time_act time)).sum := by
  obtain ⟨views, tot, owner, h0, h1, h2, hr⟩ := build_report_data_ok hok
  subst hr
  have hchar := process_nodes_char h2
  obtain ⟨hviews, hrest⟩ := Prod.mk.inj hchar
  refine ⟨node_view_of nodes_spec name sp (acc_after time memory OpAcc.init sp.operators),
    ?_, ?_, ?_⟩
  · show alookup views name = _
    rw [hviews]
    simpa using alookup_map_of_mem hkeys hmem
      (fun p => node_view_of nodes_spec p.1 p.2 (acc_after time memory OpAcc.init p.2.operators))
  · simp [node_view_of, acc_after, OpAcc.init]
  · simp [node_view_of, acc_after, OpAcc.init]

/-- Witness for C6: node "0" owns addresses [0], [1] (total-active-times 10
and 5) and [9] (absent); its aggregated time is 10 + 5 + 0 = 15 and its
activations are 3 + 4 + 0 = 7. -/
theorem c6_node_aggregation_witness :
    (∃ r w, build_report_data [("0", w_node_a), ("1", w_node_b)] ["0"] [] [] w_time w_memory
        = .ok (r, w) ∧
      ∃ nv, alookup r.nodes "0" = some nv ∧
        nv.self_total_active_ms = (w_node_a.operators.map (time_ms w_time)).sum ∧
        nv.self_activations = (w_node_a.operators.map (time_act w_time)).sum) ∧
    (w_node_a.operators.map (time_ms w_time)).sum = 15 ∧
    (w_node_a.operators.map (time_act w_time)).sum = 7 := by
  refine ⟨⟨_, _, rfl, ?_⟩, ?_, ?_⟩
  · exact c6_node_aggregation [("0", w_node_a), ("1", w_node_b)] ["0"] [] [] w_time w_memory
      _ _ (by decide) rfl "0" w_node_a (by decide)
  · norm_num [w_node_a, w_time, time_ms, alookup]
  · norm_num [w_node_a, w_time, time_act, alookup]

/-! ## C5: missing time-log address is a warning, not an error -/

theorem node_claims_keys_nodup {l : List (String × NodeSpec)}
    (hkeys : (l.map Prod.fst).Nodup)
    (hops : ∀ p ∈ l, (p.2).operators.Nodup)
    (hone : ∀ p ∈ l, ∀ q ∈ l, ∀ a : List Nat,
      a ∈ (p.2).operators → a ∈ (q.2).operators → p.1 = q.1) :
    ((node_claims l).map Prod.fst).Nodup := by
  induction l with
  | nil => simp [node_claims]
  | cons p rest ih =>
    obtain ⟨name, sp⟩ := p
    simp only [List.map_cons, List.nodup_cons] at hkeys
    have hsplit : node_claims ((name, sp) :: rest) =
        sp.operators.map (fun a' => (a', name)) ++ node_claims rest := by
      simp [node_claims]
    rw [hsplit, List.map_append]
    have hleft : ((sp.operators.map (fun a' => (a', name))).map Prod.fst) = sp.operators := by
      rw [List.map_map]
      have : (Prod.fst ∘ fun a' : List Nat => (a', name)) = id := by
        funext a'
        rfl
      rw [this, List.map_id]
    rw [hleft]
    refine List.Nodup.append (hops _ (List.mem_cons_self _ _))
      (ih hkeys.2 (fun q hq => hops _ (List.mem_cons_of_mem _ hq))
        (fun q hq p2 hp2 a hqa hpa =>
          hone q (List.mem_cons_of_mem _ hq) p2 (List.mem_cons_of_mem _ hp2) a hqa hpa)) ?_
    intro a ha1 ha2
    rcases List.mem_map.mp ha2 with ⟨⟨a', n'⟩, hcl, heq⟩
    simp only at heq
    subst heq
    obtain ⟨sp', hmem', ha'⟩ := node_claims_mem.mp hcl
    have : name = n' := hone (name, sp) (List.mem_cons_self _ _) (n', sp')
      (List.mem_cons_of_mem _ hmem') a' ha1 ha'
    subst this
    exact hkeys.1 (List.mem_map.mpr ⟨(name, sp'), hmem', rfl⟩)

/-- C5: an address declared in the topology but absent from the time log
never causes an error — aggregation still succeeds (given the report's other
preconditions: no duplicate ownership and no cross-source mismatch) — and it
produces the non-fatal warning, a zero-valued operator entry that still
appears in the node's resolved operator list, a zero contribution to the
node's time sums, and the rest of the report (all nodes, totals where the
address contributes nothing) is produced normally. -/
theorem c5_missing_addr_warning (nodes_spec : List (String × NodeSpec))
    (roots0 : List String) (rules_spec : List RuleSpec) (fpn : List (String × String))
    (time : TimeIndex) (memory : MemoryIndex)
    (hkeys : (nodes_spec.map Prod.fst).Nodup)
    (hops : ∀ p ∈ nodes_spec, (p.2).operators.Nodup)
    (hone : ∀ p ∈ nodes_spec, ∀ q ∈ nodes_spec, ∀ a : List Nat,
      a ∈ (p.2).operators → a ∈ (q.2).operators → p.1 = q.1)
    (hnomis : ∀ e ∈ memory, ∀ t ∈ time, e.1 = t.1 → (t.2).op_name = (e.2).op_name)
    (name : String) (sp : NodeSpec) (a : List Nat)
    (hmem : (name, sp) ∈ nodes_spec) (ha : a ∈ sp.operators)
    (hmiss : alookup time a = none) :
    ∃ r w, build_report_data nodes_spec roots0 rules_spec fpn time memory = .ok (r, w) ∧
      warn_message (warn_missing name a) ∈ w ∧
      (∃ nv, alookup r.nodes name = some nv ∧
        op_view_of time memory a ∈ nv.operators ∧
        (op_view_of time memory a).activations = 0 ∧
        (op_view_of time memory a).total_active_ms = 0 ∧
        (op_view_of time memory a).op_name = "" ∧
        nv.self_total_active_ms = (sp.operators.map (time_ms time)).sum ∧
        time_ms time a = 0) ∧
      r.totals.total_mapped_ms = (nodes_tot_delta time memory nodes_spec).total_mapped_ms ∧
      r.nodes.length = nodes_spec.length := by
  have hphase0 := check_cross_source_ok hnomis
  obtain ⟨o2, hfold⟩ := claim_fold_ok (node_claims nodes_spec) []
    (by simpa using node_claims_keys_nodup hkeys hops hone)
  have hown : check_ownership nodes_spec [] = .ok o2 := by
    rw [check_ownership_eq_fold]
    exact hfold
  obtain ⟨⟨views, tot, w⟩, hpn⟩ :=
    @process_nodes_exists time memory nodes_spec hnomis nodes_spec [] ⟨0, 0, 0, 0⟩ []
  have hbuild : build_report_data nodes_spec roots0 rules_spec fpn time memory =
      .ok ({ roots := roots_set nodes_spec roots0,
             nodes := views,
             rules := build_rule_views rules_spec nodes_spec fpn,
             totals := { names := nodes_spec.length,
                         operators_in_time := time.length,
                         operators_mapped := tot.operators_mapped,
                         total_mapped_ms := tot.total_mapped_ms,
                         total_mapped_activations := tot.total_mapped_activations,
                         total_batched_in := tot.total_batched_in } }, w) := by
    simp only [build_report_data, hphase0, hown, hpn]
  have hchar := process_nodes_char hpn
  obtain ⟨hviews, hrest⟩ := Prod.mk.inj hchar
  obtain ⟨htot, hw⟩ := Prod.mk.inj hrest
  refine ⟨_, w, hbuild, ?_, ?_, ?_, ?_⟩
  · rw [hw]
    simp only [List.nil_append]
    refine List.mem_flatMap.mpr ⟨(name, sp), hmem, ?_⟩
    exact List.mem_filterMap.mpr ⟨a, ha, by simp [hmiss]⟩
  · refine ⟨node_view_of nodes_spec name sp (acc_after time memory OpAcc.init sp.operators),
      ?_, ?_, ?_, ?_, ?_, ?_, ?_⟩
    · show alookup views name = _
      rw [hviews]
      simpa using alookup_map_of_mem hkeys hmem
        (fun p => node_view_of nodes_spec p.1 p.2 (acc_after time memory OpAcc.init p.2.operators))
    · show _ ∈ sortByD _ _
      rw [mem_sortByD]
      simp only [acc_after, OpAcc.init, List.nil_append]
      exact List.mem_map.mpr ⟨a, ha, rfl⟩
    · simp [op_view_of, time_act, hmiss]
    · simp [op_view_of, time_ms, hmiss]
    · simp [op_view_of, hmiss]
    · simp [node_view_of, acc_after, OpAcc.init]
    · simp [time_ms, hmiss]
  · show tot.total_mapped_ms = _
    rw [htot]
    cases nodes_tot_delta time memory nodes_spec
    simp [tot_add]
  · show views.length = _
    rw [hviews]
    simp

/-- Witness for C5: address [9] is owned by node "0" but absent from the
time log. -/
theorem c5_missing_addr_warning_witness :
    ∃ r w, build_report_data [("0", w_node_a), ("1", w_node_b)] ["0"] [] [] w_time w_memory
        = .ok (r, w) ∧
      warn_message (warn_missing "0" [9]) ∈ w ∧
      (∃ nv, alookup r.nodes "0" = some nv ∧
        op_view_of w_time w_memory [9] ∈ nv.operators ∧
        (op_view_of w_time w_memory [9]).activations = 0 ∧
        (op_view_of w_time w_memory [9]).total_active_ms = 0 ∧
        (op_view_of w_time w_memory [9]).op_name = "" ∧
        nv.self_total_active_ms = (w_node_a.operators.map (time_ms w_time)).sum ∧
        time_ms w_time [9] = 0) ∧
      r.totals.total_mapped_ms =
        (nodes_tot_delta w_time w_memory [("0", w_node_a), ("1", w_node_b)]).total_mapped_ms ∧
      r.nodes.length = ([("0", w_node_a), ("1", w_node_b)] : List (String × NodeSpec)).length :=
  c5_missing_addr_warning [("0", w_node_a), ("1", w_node_b)] ["0"] [] [] w_time w_memory
    (by decide) (by decide) (by decide) (by decide) "0" w_node_a [9]
    (by decide) (by decide) rfl

/-! ## C8: exactly one sink per rule plan tree -/

theorem build_raw_parents_char {text : String} {fpn : List (String × Nat)} :
    ∀ {pt : List RawPlanNode} {rp0 : List (String × List String)}
    {nm : List (String × RulePlanNodeSpec)} {rp : List (String × List String)},
    build_raw_parents text fpn pt rp0 nm = .ok rp → rp = pure_raw_parents pt rp0 := by
  intro pt
  induction pt with
  | nil =>
    intro rp0 nm rp h
    exact (Except.ok.inj h).symm
  | cons pn rest ih =>
    intro rp0 nm rp h
    simp only [build_raw_parents] at h
    split at h
    · simp at h
    · split at h
      · simp at h
      · split at h
        · simp at h
        · exact ih h

theorem check_rule_parents_char {text : String} {rp : List (String × List String)} :
    ∀ {l : List (String × List String)} {m m' : List (String × RulePlanNodeSpec)},
    check_rule_parents text rp l m = .ok m' →
    m' = l.foldl (fun acc x => or_insert_empty acc x.1) m := by
  intro l
  induction l with
  | nil =>
    intro m m' h
    exact (Except.ok.inj h).symm
  | cons p rest ih =>
    intro m m' h
    obtain ⟨fp, parents⟩ := p
    simp only [check_rule_parents] at h
    cases hc : check_parent_refs text rp parents with
    | error e =>
      rw [hc] at h
      simp at h
    | ok u =>
      rw [hc] at h
      simp only at h
      exact ih h

/-- C8 amended: a rule plan tree whose derived children map has other than
exactly one sink (zero-children fingerprint) fails validation, and on success
the unique sink is recorded as the rule's root; the error message reads
"rule '<text>' plan tree must have exactly one sink fingerprint (found N)",
not "expected exactly one sink, found 2". -/
theorem c8_rule_sink_validation :
    (∀ (fpn : List (String × Nat)) (r : RawRule),
      (sinks_of (rule_pure_map r)).length ≠ 1 → ∃ e, validate_rule fpn r = .error e) ∧
    (∀ (fpn : List (String × Nat)) (r : RawRule) (spec : RuleSpec),
      validate_rule fpn r = .ok spec → sinks_of spec.nodes = [spec.root]) := by
  constructor
  · intro fpn r hlen
    unfold validate_rule
    cases e1 : build_raw_parents r.text fpn r.plan_tree [] [] with
    | error e => exact ⟨e, rfl⟩
    | ok rp =>
      have hrp := build_raw_parents_char e1
      subst hrp
      dsimp only
      cases e2 : check_rule_parents r.text (pure_raw_parents r.plan_tree [])
          (pure_raw_parents r.plan_tree []) [] with
      | error e => exact ⟨e, rfl⟩
      | ok m0 =>
        have hm0 := check_rule_parents_char e2
        subst hm0
        dsimp only
        have hm2 : sort_children (derive_children (pure_raw_parents r.plan_tree [])
            ((pure_raw_parents r.plan_tree []).foldl
              (fun acc x => or_insert_empty acc x.1) [])) = rule_pure_map r := rfl
        simp only [hm2]
        cases hs : sinks_of (rule_pure_map r) with
        | nil => exact ⟨_, rfl⟩
        | cons x tl =>
          cases tl with
          | nil =>
            exact absurd (by rw [hs]; rfl) hlen
          | cons y tl2 => exact ⟨_, rfl⟩
  · intro fpn r spec h
    unfold validate_rule at h
    split at h
    · simp at h
    · rename_i rp e1
      split at h
      · simp at h
      · rename_i m0 e2
        dsimp only at h
        split at h
        · rename_i root_fp hs
          have := Except.ok.inj h
          subst this
          exact hs
        · simp at h

set_option maxRecDepth 4000 in
/-- C8 counterexample: a plan tree with two zero-children fingerprints does
fail, but with the message "rule 'r' plan tree must have exactly one sink
fingerprint (found 2)", which does not contain the claimed phrase "expected
exactly one sink, found 2". -/
theorem c8_sink_message_differs :
    OpsSpec.validate_and_build two_sink_spec =
      .error "rule 'r' plan tree must have exactly one sink fingerprint (found 2)" ∧
    ¬ (List.IsInfix "expected exactly one sink, found 2".data
        "rule 'r' plan tree must have exactly one sink fingerprint (found 2)".data) :=
  ⟨rfl, by decide⟩

/-- Witness for C8 amended: the two-sink rule fails; the one-sink rule
validates with f2 (the only childless fingerprint) as root. -/
theorem c8_rule_sink_validation_witness :
    (∃ e, validate_rule two_sink_fpn two_sink_rule = .error e) ∧
    (∃ spec, validate_rule two_sink_fpn one_sink_rule = .ok spec ∧
      sinks_of spec.nodes = [spec.root]) :=
  ⟨c8_rule_sink_validation.1 two_sink_fpn two_sink_rule (by decide),
   ⟨_, rfl, c8_rule_sink_validation.2 two_sink_fpn one_sink_rule _ rfl⟩⟩

/-! ## C10: cross-block fingerprint duplication and first-claim resolution -/

theorem insertById_chain {m : List (Nat × NodeSpec)} {k : Nat} {v : NodeSpec}
    (hch : List.Chain' (fun a b => a.1 < b.1) m) (habs : alookup m k = none) :
    List.Chain' (fun a b => a.1 < b.1) (insertById m k v) := by
  induction m with
  | nil => simp [insertById]
  | cons p rest ih =>
    obtain ⟨k', v'⟩ := p
    have hk' : ¬ k' = k := by
      intro he
      simp [alookup, he] at habs
    have habs' : alookup rest k = none := by
      simp [alookup, hk'] at habs
      exact habs
    simp only [insertById]
    by_cases hlt : k < k'
    · rw [if_pos hlt]
      exact List.Chain'.cons hlt hch
    · rw [if_neg hlt]
      have hgt : k' < k := by
        rcases Nat.lt_trichotomy k k' with h | h | h
        · exact absurd h hlt
        · exact absurd h.symm hk'
        · exact h
      have hch2 := ih (List.Chain'.tail hch) habs'
      cases rest with
      | nil => exact List.chain'_pair.mpr hgt
      | cons q qs =>
        obtain ⟨kq, vq⟩ := q
        simp only [insertById] at hch2 ⊢
        by_cases hlt2 : k < kq
        · rw [if_pos hlt2] at hch2 ⊢
          exact List.Chain'.cons hgt hch2
        · rw [if_neg hlt2] at hch2 ⊢
          have hrel : k' < kq := (List.chain'_cons.mp hch).1
          exact List.Chain'.cons hrel hch2

theorem build_nodes_chain :
    ∀ {raws : List RawNode} {acc nodes : List (Nat × NodeSpec)},
    List.Chain' (fun a b => a.1 < b.1) acc →
    build_nodes raws acc = .ok nodes → List.Chain' (fun a b => a.1 < b.1) nodes := by
  intro raws
  induction raws with
  | nil =>
    intro acc nodes hch h
    rw [← Except.ok.inj h]
    exact hch
  | cons raw rest ih =>
    intro acc nodes hch h
    simp only [build_nodes] at h
    split at h
    · simp at h
    · rename_i hnone
      have habs : alookup acc raw.id = none := by
        cases hx : alookup acc raw.id with
        | none => rfl
        | some q => rw [hx] at hnone; simp at hnone
      exact ih (insertById_chain hch habs) h

theorem build_fp_maps_lookup :
    ∀ {nodes : List (Nat × NodeSpec)} {fpb : List ((String × String) × Nat)}
    {fpn0 fpn : List (String × Nat)},
    build_fp_maps nodes fpb fpn0 = .ok fpn → ∀ fp : String,
    alookup fpn fp =
      match alookup fpn0 fp with
      | some i => some i
      | none => first_carrier nodes fp := by
  intro nodes
  induction nodes with
  | nil =>
    intro fpb fpn0 fpn h fp
    rw [← Except.ok.inj h]
    cases alookup fpn0 fp <;> simp [first_carrier]
  | cons p rest ih =>
    intro fpb fpn0 fpn h fp
    obtain ⟨id, node⟩ := p
    simp only [build_fp_maps] at h
    cases hfp0 : node.fingerprint with
    | none =>
      rw [hfp0] at h
      simp only at h
      rw [ih h fp]
      have hfc : first_carrier ((id, node) :: rest) fp = first_carrier rest fp := by
        simp [first_carrier, List.find?_cons, hfp0]
      rw [hfc]
    | some fp0 =>
      rw [hfp0] at h
      simp only at h
      cases hb : alookup fpb (node.block, fp0) with
      | some prev =>
        rw [hb] at h
        simp at h
      | none =>
        rw [hb] at h
        simp only at h
        rw [ih h fp]
        by_cases hfe : fp = fp0
        · subst hfe
          have hfc : first_carrier ((id, node) :: rest) fp = some id := by
            simp [first_carrier, List.find?_cons, hfp0]
          rw [hfc]
          cases hl0 : alookup fpn0 fp with
          | some j =>
            rw [if_pos (by simp)]
            rw [hl0]
          | none =>
            rw [if_neg (by simp)]
            have hstep : alookup (fpn0 ++ [(fp, id)]) fp = some id := by
              rw [alookup_append_right hl0]
              simp [alookup]
            rw [hstep]
        · have hfe' : ¬ fp0 = fp := fun he => hfe he.symm
          have hfc : first_carrier ((id, node) :: rest) fp = first_carrier rest fp := by
            simp [first_carrier, List.find?_cons, hfp0, hfe']
          rw [hfc]
          have hsame : alookup (if (alookup fpn0 fp0).isSome then fpn0
              else fpn0 ++ [(fp0, id)]) fp = alookup fpn0 fp := by
            split
            · rfl
            · cases hl0 : alookup fpn0 fp with
              | some j => exact alookup_append_left hl0
              | none =>
                rw [alookup_append_right hl0]
                simp [alookup, hfe']
          rw [hsame]

theorem build_fp_maps_nodup :
    ∀ {nodes : List (Nat × NodeSpec)} {fpb : List ((String × String) × Nat)}
    {fpn0 fpn : List (String × Nat)},
    (fpn0.map Prod.fst).Nodup →
    build_fp_maps nodes fpb fpn0 = .ok fpn → (fpn.map Prod.fst).Nodup := by
  intro nodes
  induction nodes with
  | nil =>
    intro fpb fpn0 fpn hnd h
    rw [← Except.ok.inj h]
    exact hnd
  | cons p rest ih =>
    intro fpb fpn0 fpn hnd h
    obtain ⟨id, node⟩ := p
    simp only [build_fp_maps] at h
    cases hfp0 : node.fingerprint with
    | none =>
      rw [hfp0] at h
      exact ih hnd h
    | some fp0 =>
      rw [hfp0] at h
      simp only at h
      cases hb : alookup fpb (node.block, fp0) with
      | some prev =>
        rw [hb] at h
        simp at h
      | none =>
        rw [hb] at h
        simp only at h
        refine ih ?_ h
        split
        · exact hnd
        · rename_i hns
          have hl0 : alookup fpn0 fp0 = none := by
            cases hx : alookup fpn0 fp0 with
            | none => rfl
            | some q => rw [hx] at hns; simp at hns
          rw [List.map_append]
          refine List.Nodup.append hnd (by simp) ?_
          intro x hx1 hx2
          simp only [List.map_cons, List.map_nil, List.mem_singleton] at hx2
          subst hx2
          exact (alookup_eq_none_iff.mp hl0) hx1

theorem chain_head_lt :
    ∀ {rest : List (Nat × NodeSpec)} {k : Nat} {sp0 : NodeSpec},
    List.Chain' (fun a b => a.1 < b.1) ((k, sp0) :: rest) →
    ∀ {j : Nat} {spj : NodeSpec}, (j, spj) ∈ rest → k < j := by
  intro rest
  induction rest with
  | nil =>
    intro k sp0 _ j spj h
    simp at h
  | cons q qs ih =>
    intro k sp0 hch j spj hj
    obtain ⟨kq, vq⟩ := q
    have h1 : k < kq := (List.chain'_cons.mp hch).1
    rcases List.mem_cons.mp hj with he | hm
    · cases he
      exact h1
    · exact lt_trans h1 (ih (List.chain'_cons.mp hch).2 hm)

theorem first_carrier_min :
    ∀ {nodes : List (Nat × NodeSpec)},
    List.Chain' (fun a b => a.1 < b.1) nodes → ∀ {fp : String} {i : Nat},
    first_carrier nodes fp = some i →
    (∃ sp, (i, sp) ∈ nodes ∧ sp.fingerprint = some fp) ∧
    (∀ j spj, (j, spj) ∈ nodes → spj.fingerprint = some fp → i ≤ j) := by
  intro nodes
  induction nodes with
  | nil =>
    intro _ fp i h
    simp [first_carrier] at h
  | cons p rest ih =>
    intro hch fp i h
    obtain ⟨k, sp0⟩ := p
    by_cases hpred : sp0.fingerprint = some fp
    · have hik : k = i := by
        simp [first_carrier, List.find?_cons, hpred] at h
        exact h
      subst hik
      refine ⟨⟨sp0, List.mem_cons_self _ _, hpred⟩, ?_⟩
      intro j spj hj hfpj
      rcases List.mem_cons.mp hj with he | hm
      · cases he
        exact le_refl _
      · exact le_of_lt (chain_head_lt hch hm)
    · have h' : first_carrier rest fp = some i := by
        simp [first_carrier, List.find?_cons, hpred] at h ⊢
        exact h
      obtain ⟨⟨sp', hm', hfp'⟩, hmin⟩ := ih (List.Chain'.tail hch) h'
      refine ⟨⟨sp', List.mem_cons_of_mem _ hm', hfp'⟩, ?_⟩
      intro j spj hj hfpj
      rcases List.mem_cons.mp hj with he | hm
      · cases he
        exact absurd hfpj hpred
      · exact hmin j spj hm hfpj

theorem alookup_map_value {β γ : Type} {l : List (String × β)} (g : β → γ) (a : String) :
    alookup (l.map (fun x => (x.1, g x.2))) a = (alookup l a).map g := by
  induction l with
  | nil => simp [alookup]
  | cons p rest ih =>
    obtain ⟨k, v⟩ := p
    by_cases hk : k = a <;> simp [alookup, hk, ih]

theorem alookup_foldl_binsert_none {β : Type} :
    ∀ (l m : List (String × β)) (a : String),
    alookup l a = none →
    alookup (l.foldl (fun acc p => binsertStr acc p.1 p.2) m) a = alookup m a := by
  intro l
  induction l with
  | nil => intro m a _; rfl
  | cons p rest ih =>
    intro m a h
    obtain ⟨k, v⟩ := p
    have hk : ¬ k = a := by
      intro he
      simp [alookup, he] at h
    have h' : alookup rest a = none := by
      simp [alookup, hk] at h
      exact h
    show alookup (rest.foldl (fun acc p => binsertStr acc p.1 p.2) (binsertStr m k v)) a = _
    rw [ih (binsertStr m k v) a h', alookup_binsertStr,
      if_neg (fun he : a = k => hk he.symm)]

theorem alookup_foldl_binsert_some {β : Type} :
    ∀ (l m : List (String × β)) (a : String) (b : β),
    (l.map Prod.fst).Nodup → alookup l a = some b →
    alookup (l.foldl (fun acc p => binsertStr acc p.1 p.2) m) a = some b := by
  intro l
  induction l with
  | nil =>
    intro m a b _ h
    simp [alookup] at h
  | cons p rest ih =>
    intro m a b hnd h
    obtain ⟨k, v⟩ := p
    simp only [List.map_cons, List.nodup_cons] at hnd
    by_cases hk : k = a
    · subst hk
      have hb : v = b := by
        simp [alookup] at h
        exact h
      subst hb
      have hrest : alookup rest k = none := by
        rw [alookup_eq_none_iff]
        exact hnd.1
      show alookup (rest.foldl (fun acc p => binsertStr acc p.1 p.2) (binsertStr m k v)) k = _
      rw [alookup_foldl_binsert_none rest (binsertStr m k v) k hrest, alookup_binsertStr,
        if_pos rfl]
    · have h' : alookup rest a = some b := by
        simp [alookup, hk] at h
        exact h
      exact ih (binsertStr m k v) a b hnd.2 h'

theorem stringify_fp_lookup {fpn : List (String × Nat)}
    (hnd : (fpn.map Prod.fst).Nodup) (fp : String) :
    alookup (stringify_fp fpn) fp = (alookup fpn fp).map toString := by
  unfold stringify_fp
  have hnd' : ((fpn.map (fun x => (x.1, toString x.2))).map Prod.fst).Nodup := by
    rw [List.map_map]
    have hc : (Prod.fst ∘ fun x : String × Nat => (x.1, toString x.2)) = Prod.fst := by
      funext x
      rfl
    rw [hc]
    exact hnd
  cases hl : alookup fpn fp with
  | some i =>
    have hsome : alookup (fpn.map (fun x => (x.1, toString x.2))) fp = some (toString i) := by
      rw [alookup_map_value, hl]
      rfl
    rw [alookup_foldl_binsert_some _ [] fp _ hnd' hsome]
    rfl
  | none =>
    have hnone : alookup (fpn.map (fun x => (x.1, toString x.2))) fp = none := by
      rw [alookup_map_value, hl]
      rfl
    rw [alookup_foldl_binsert_none _ [] fp hnone]
    rfl

theorem build_rule_view_nodes_mem {nodes_spec : List (String × NodeSpec)}
    {fpn : List (String × String)} {parents : List (String × List String)} :
    ∀ {l : List (String × RulePlanNodeSpec)} {x : String × RulePlanNodeView},
    x ∈ build_rule_view_nodes nodes_spec fpn parents l →
    x.2.node = alookup fpn x.1 ∧
    x.2.label = ((alookup fpn x.1).bind (alookup nodes_spec)).map NodeSpec.label := by
  intro l
  induction l with
  | nil =>
    intro x h
    simp [build_rule_view_nodes] at h
  | cons p rest ih =>
    intro x h
    obtain ⟨fp, node⟩ := p
    simp only [build_rule_view_nodes] at h
    rcases List.mem_cons.mp h with he | hm
    · subst he
      exact ⟨rfl, rfl⟩
    · exact ih hm

/-- C10: when validation succeeds, `fingerprint_to_node` maps each
fingerprint to the smallest node id carrying it (duplicates across different
blocks are not rejected — the witness validates such an input successfully —
the per-block check only rejects same-block duplicates), and every rule-view
entry for that fingerprint resolves its `node` and `label` fields through
that smallest-id node. -/
theorem c10_fingerprint_first_claim (s : OpsSpec) (v : ValidatedOps)
    (hok : s.validate_and_build = .ok v) (fp : String) (i : Nat)
    (hlook : alookup v.fingerprint_to_node fp = some i) :
    (∃ sp, (i, sp) ∈ v.nodes ∧ sp.fingerprint = some fp) ∧
    (∀ j spj, (j, spj) ∈ v.nodes → spj.fingerprint = some fp → i ≤ j) ∧
    (∀ rv ∈ build_rule_views v.rules (stringify_nodes v.nodes)
        (stringify_fp v.fingerprint_to_node),
      ∀ x ∈ rv.nodes, x.1 = fp →
        x.2.node = some (toString i) ∧
        x.2.label = (alookup (stringify_nodes v.nodes) (toString i)).map NodeSpec.label) := by
  obtain ⟨nodes, fpn, rules_out, h1, hnil, h2, h3, h4, h5, hv⟩ := validate_and_build_ok hok
  subst hv
  have hch : List.Chain' (fun a b => a.1 < b.1) nodes :=
    build_nodes_chain List.chain'_nil h1
  have hfc : first_carrier nodes fp = some i := by
    have := build_fp_maps_lookup h2 fp
    simp only [alookup] at this
    rw [hlook] at this
    exact this.symm
  obtain ⟨hex, hmin⟩ := first_carrier_min hch hfc
  refine ⟨hex, hmin, ?_⟩
  intro rv hrv x hx hxfp
  have hnd : (fpn.map Prod.fst).Nodup := build_fp_maps_nodup (by simp) h2
  obtain ⟨rule, hrule, hrveq⟩ := List.mem_map.mp hrv
  subst hrveq
  simp only at hx
  obtain ⟨hnode, hlabel⟩ := build_rule_view_nodes_mem hx
  have hres : alookup (stringify_fp fpn) x.1 = some (toString i) := by
    rw [hxfp, stringify_fp_lookup hnd, hlook]
    rfl
  constructor
  · rw [hnode, hres]
  · rw [hlabel, hres]
    rfl

/-- Witness for C10: `c10_spec` has nodes 5 and 7 in different blocks both
carrying fingerprint "shared"; validation succeeds and the map resolves to 5. -/
theorem c10_fingerprint_first_claim_witness :
    ∃ v, OpsSpec.validate_and_build c10_spec = .ok v ∧
      alookup v.fingerprint_to_node "shared" = some 5 ∧
      ((∃ sp, (5, sp) ∈ v.nodes ∧ sp.fingerprint = some "shared") ∧
       (∀ j spj, (j, spj) ∈ v.nodes → spj.fingerprint = some "shared" → 5 ≤ j) ∧
       (∀ rv ∈ build_rule_views v.rules (stringify_nodes v.nodes)
           (stringify_fp v.fingerprint_to_node),
         ∀ x ∈ rv.nodes, x.1 = "shared" →
           x.2.node = some (toString 5) ∧
           x.2.label = (alookup (stringify_nodes v.nodes) (toString 5)).map NodeSpec.label)) :=
  ⟨_, rfl, rfl, c10_fingerprint_first_claim c10_spec _ rfl "shared" 5 rfl⟩

/-! ## C7: the derived spanning tree is a forest -/

theorem lexLt_irrefl : ∀ l : List Nat, lexLt l l = false := by
  intro l
  induction l with
  | nil => rfl
  | cons x xs ih => simp [lexLt, lt_irrefl, ih]

theorem lexLt_asymm : ∀ {a b : List Nat}, lexLt a b = true → lexLt b a = false := by
  intro a
  induction a with
  | nil =>
    intro b h
    cases b with
    | nil => simp [lexLt] at h
    | cons y ys => simp [lexLt]
  | cons x xs ih =>
    intro b h
    cases b with
    | nil => simp [lexLt] at h
    | cons y ys =>
      simp only [lexLt] at h ⊢
      by_cases hxy : x < y
      · rw [if_neg (by omega), if_pos hxy]
      · by_cases hyx : y < x
        · rw [if_neg hxy, if_pos hyx] at h
          exact absurd h (by simp)
        · have hxe : x = y := by omega
          subst hxe
          rw [if_neg hxy, if_neg hxy] at h
          rw [if_neg hxy, if_neg hxy]
          exact ih h

theorem lexLt_trans : ∀ {a b c : List Nat},
    lexLt a b = true → lexLt b c = true → lexLt a c = true := by
  intro a
  induction a with
  | nil =>
    intro b c h1 h2
    cases b with
    | nil => simp [lexLt] at h1
    | cons y ys =>
      cases c with
      | nil => simp [lexLt] at h2
      | cons z zs => simp [lexLt]
  | cons x xs ih =>
    intro b c h1 h2
    cases b with
    | nil => simp [lexLt] at h1
    | cons y ys =>
      cases c with
      | nil => simp [lexLt] at h2
      | cons z zs =>
        simp only [lexLt] at h1 h2 ⊢
        by_cases hxy : x < y
        · by_cases hyz : y < z
          · rw [if_pos (lt_trans hxy hyz)]
          · by_cases hzy : z < y
            · rw [if_neg hyz, if_pos hzy] at h2
              exact absurd h2 (by simp)
            · have hye : y = z := by omega
              subst hye
              rw [if_pos hxy]
        · by_cases hyx : y < x
          · rw [if_neg hxy, if_pos hyx] at h1
            exact absurd h1 (by simp)
          · have hxe : x = y := by omega
            subst hxe
            by_cases hyz : x < z
            · rw [if_pos hyz]
            · by_cases hzy : z < x
              · rw [if_neg hyz, if_pos hzy] at h2
                exact absurd h2 (by simp)
              · have hze : x = z := by omega
                subst hze
                rw [if_neg hyz, if_neg hyz] at h1 h2 ⊢
                exact ih h1 h2

theorem lexLt_conn : ∀ {a b : List Nat},
    lexLt a b = false → lexLt b a = false → a = b := by
  intro a
  induction a with
  | nil =>
    intro b h1 h2
    cases b with
    | nil => rfl
    | cons y ys => simp [lexLt] at h1
  | cons x xs ih =>
    intro b h1 h2
    cases b with
    | nil => simp [lexLt] at h2
    | cons y ys =>
      simp only [lexLt] at h1 h2
      by_cases hxy : x < y
      · rw [if_pos hxy] at h1
        exact absurd h1 (by simp)
      · by_cases hyx : y < x
        · rw [if_pos hyx] at h2
          exact absurd h2 (by simp)
        · have hxe : x = y := by omega
          subst hxe
          rw [if_neg hxy, if_neg hxy] at h1 h2
          rw [ih h1 h2]

theorem char_toNat_injective : Function.Injective Char.toNat := by
  intro c d h
  rw [← Char.ofNat_toNat c, ← Char.ofNat_toNat d, h]

theorem strLtB_irrefl (s : String) : strLtB s s = false := lexLt_irrefl _

theorem strLtB_asymm {s t : String} (h : strLtB s t = true) : strLtB t s = false :=
  lexLt_asymm h

theorem strLtB_trans {s t u : String} (h1 : strLtB s t = true) (h2 : strLtB t u = true) :
    strLtB s u = true :=
  lexLt_trans h1 h2

theorem strLtB_conn {s t : String} (h1 : strLtB s t = false) (h2 : strLtB t s = false) :
    s = t := by
  have hdata := lexLt_conn h1 h2
  have hd : s.data = t.data := List.map_injective_iff.mpr char_toNat_injective hdata
  cases s
  cases t
  exact congrArg String.mk (by simpa using hd)

theorem insSortedD_chain {lt : String → String → Bool}
    (hconn : ∀ a b : String, lt a b = false → lt b a = false → a = b) :
    ∀ {l : List String} {x : String},
    List.Chain' (fun a b => lt a b = true) l →
    List.Chain' (fun a b => lt a b = true) (insSortedD lt x l) := by
  intro l
  induction l with
  | nil =>
    intro x _
    simp [insSortedD]
  | cons y ys ih =>
    intro x hch
    simp only [insSortedD]
    by_cases hxy : x = y
    · rw [if_pos hxy]
      exact hch
    · rw [if_neg hxy]
      by_cases hlt : lt x y = true
      · rw [if_pos hlt]
        exact List.Chain'.cons hlt hch
      · rw [if_neg hlt]
        have hyx : lt y x = true := by
          cases hcase : lt y x with
          | true => rfl
          | false =>
            exact absurd (hconn x y (by
              cases hc2 : lt x y with
              | false => rfl
              | true => exact absurd hc2 hlt) hcase) hxy
        have htail := @ih x (List.Chain'.tail hch)
        cases ys with
        | nil => exact List.chain'_pair.mpr hyx
        | cons z zs =>
          simp only [insSortedD] at htail ⊢
          by_cases hxz : x = z
          · rw [if_pos hxz] at htail ⊢
            exact hch
          · rw [if_neg hxz] at htail ⊢
            by_cases hlt2 : lt x z = true
            · rw [if_pos hlt2] at htail ⊢
              exact List.Chain'.cons hyx htail
            · rw [if_neg hlt2] at htail ⊢
              have hyz : lt y z = true := (List.chain'_cons.mp hch).1
              exact List.Chain'.cons hyz htail

theorem sortDedupD_chain {lt : String → String → Bool}
    (hconn : ∀ a b : String, lt a b = false → lt b a = false → a = b)
    (l : List String) :
    List.Chain' (fun a b => lt a b = true) (sortDedupD lt l) := by
  induction l with
  | nil => simp [sortDedupD]
  | cons x xs ih =>
    show List.Chain' _ (insSortedD lt x (sortDedupD lt xs))
    exact insSortedD_chain hconn ih

theorem chain'_head_rel {α : Type} {R : α → α → Prop}
    (htrans : ∀ a b c, R a b → R b c → R a c) :
    ∀ {t : List α} {h : α}, List.Chain' R (h :: t) → ∀ q ∈ t, R h q := by
  intro t
  induction t with
  | nil =>
    intro h _ q hq
    simp at hq
  | cons z zs ih =>
    intro h hch q hq
    have h1 : R h z := (List.chain'_cons.mp hch).1
    rcases List.mem_cons.mp hq with he | hm
    · subst he
      exact h1
    · exact htrans _ _ _ h1 (ih (List.chain'_cons.mp hch).2 q hm)

/-- Membership in the derived root set: either a provided root or a node
without a primary parent. -/
theorem mem_roots_set {nodes : List (String × NodeSpec)} {roots0 : List String}
    {n : String} :
    n ∈ roots_set nodes roots0 ↔
      n ∈ roots0 ∨ ∃ sp, (n, sp) ∈ nodes ∧ primary_parent_of sp = none := by
  simp only [roots_set, mem_sortDedupD, List.mem_append, List.mem_map, List.mem_filter,
    decide_eq_true_eq]
  constructor
  · rintro (h | ⟨⟨a, sp⟩, ⟨hm, hp⟩, h1⟩)
    · exact Or.inl h
    · obtain rfl : a = n := h1
      exact Or.inr ⟨sp, hm, hp⟩
  · rintro (h | ⟨sp, hm, hp⟩)
    · exact Or.inl h
    · exact Or.inr ⟨(n, sp), ⟨hm, hp⟩, rfl⟩

/-- Membership in a `tree_children` bucket: the child's spec has that
primary parent. -/
theorem mem_tree_children {nodes : List (String × NodeSpec)} {c p : String} :
    c ∈ tree_children nodes p ↔
      ∃ sp, (c, sp) ∈ nodes ∧ primary_parent_of sp = some p := by
  simp only [tree_children, mem_sortByD, List.mem_map, List.mem_filter, decide_eq_true_eq]
  constructor
  · rintro ⟨⟨a, sp⟩, ⟨hm, hp⟩, h1⟩
    obtain rfl : a = c := h1
    exact ⟨sp, hm, hp⟩
  · rintro ⟨sp, hm, hp⟩
    exact ⟨(c, sp), ⟨hm, hp⟩, rfl⟩

/-- With a rank certificate of acyclicity, every node reaches the root set
along primary-parent edges (strong induction on the rank). -/
theorem reaches_root_of_rank (nodes : List (String × NodeSpec)) (roots0 : List String)
    (hpar : ∀ p ∈ nodes, ∀ q ∈ node_norm_parents p.2, q ∈ nodes.map Prod.fst)
    (rank : String → Nat)
    (hrank : ∀ p ∈ nodes, ∀ q ∈ node_norm_parents p.2, rank q < rank p.1) :
    ∀ (k : Nat), ∀ p ∈ nodes, rank p.1 < k → ReachesRoot nodes roots0 p.1 := by
  intro k
  induction k with
  | zero =>
    intro p _ h
    omega
  | succ k ih =>
    intro p hp hlt
    obtain ⟨n, sp⟩ := p
    cases hnp : node_norm_parents sp with
    | nil =>
      exact .root n (mem_roots_set.mpr (Or.inr ⟨sp, hp, by
        simp [primary_parent_of, hnp]⟩))
    | cons q t =>
      have hq : q ∈ node_norm_parents sp := by
        rw [hnp]
        exact List.mem_cons_self _ _
      obtain ⟨⟨a, sq⟩, hx, hx1⟩ := List.mem_map.mp (hpar (n, sp) hp q hq)
      obtain rfl : a = q := hx1
      have hr : rank a < rank n := hrank (n, sp) hp a hq
      have hreach : ReachesRoot nodes roots0 a := ih (a, sq) hx (by
        have hlt' : rank n < k + 1 := hlt
        show rank a < k
        omega)
      exact .step n a ⟨sp, hp, by simp [primary_parent_of, hnp]⟩ hreach

/-- C7: over any topology given with duplicate-free node names, with every
normalised parent present as a node, with the provided roots parentless, and
acyclic (witnessed by a rank function decreasing along parent edges), the
derived spanning tree of `build_report_data` is a forest: every non-root node
has a primary parent which is its lexicographically smallest parent; every
node reaches the root set along primary-parent edges only; the
`tree_children` buckets partition the non-root node set (each non-root is in
exactly one bucket); and no root lies in any bucket. -/
theorem c7_spanning_forest (nodes : List (String × NodeSpec)) (roots0 : List String)
    (hkeys : (nodes.map Prod.fst).Nodup)
    (hpar : ∀ p ∈ nodes, ∀ q ∈ node_norm_parents p.2, q ∈ nodes.map Prod.fst)
    (hroots0 : ∀ r ∈ roots0, ∀ p ∈ nodes, p.1 = r → node_norm_parents p.2 = [])
    (rank : String → Nat)
    (hrank : ∀ p ∈ nodes, ∀ q ∈ node_norm_parents p.2, rank q < rank p.1) :
    (∀ p ∈ nodes, p.1 ∉ roots_set nodes roots0 →
      ∃ q, primary_parent_of p.2 = some q ∧ q ∈ node_norm_parents p.2 ∧
        ∀ q' ∈ node_norm_parents p.2, strLtB q' q = false) ∧
    (∀ p ∈ nodes, ReachesRoot nodes roots0 p.1) ∧
    (∀ p ∈ nodes, p.1 ∉ roots_set nodes roots0 →
      ∃! q : String, p.1 ∈ tree_children nodes q) ∧
    (∀ p ∈ nodes, p.1 ∈ roots_set nodes roots0 →
      ∀ q, p.1 ∉ tree_children nodes q) := by
  have hnonroot_some : ∀ p ∈ nodes, p.1 ∉ roots_set nodes roots0 →
      ∃ q t, node_norm_parents p.2 = q :: t := by
    intro p hp hr
    obtain ⟨n, sp⟩ := p
    cases hnp : node_norm_parents sp with
    | nil =>
      exact absurd (mem_roots_set.mpr (Or.inr ⟨sp, hp, by
        simp [primary_parent_of, hnp]⟩)) hr
    | cons q t => exact ⟨q, t, rfl⟩
  have hroot_none : ∀ p ∈ nodes, p.1 ∈ roots_set nodes roots0 →
      primary_parent_of p.2 = none := by
    intro p hp hr
    obtain ⟨n, sp⟩ := p
    rcases mem_roots_set.mp hr with h0 | ⟨sp2, hm, hpn⟩
    · have h := hroots0 n h0 (n, sp) hp rfl
      simp only at h
      simp [primary_parent_of, h]
    · have he : sp2 = sp := nodup_keys_eq hkeys hm hp
      rw [← he]
      exact hpn
  refine ⟨?_, ?_, ?_, ?_⟩
  · intro p hp hr
    obtain ⟨n, sp⟩ := p
    obtain ⟨q, t, hnp⟩ := hnonroot_some (n, sp) hp hr
    simp only at hnp
    refine ⟨q, by simp [primary_parent_of, hnp], by
      rw [hnp]; exact List.mem_cons_self _ _, ?_⟩
    intro q' hq'
    rw [hnp] at hq'
    rcases List.mem_cons.mp hq' with he | hm
    · rw [he]
      exact strLtB_irrefl q
    · have hch : List.Chain' (fun a b => strLtB a b = true) (node_norm_parents sp) := by
        show List.Chain' _ (sortDedupD strLtB _)
        exact sortDedupD_chain (fun a b h1 h2 => strLtB_conn h1 h2) _
      rw [hnp] at hch
      exact strLtB_asymm
        (chain'_head_rel
          (fun a b c (h1 : strLtB a b = true) (h2 : strLtB b c = true) =>
            strLtB_trans h1 h2) hch q' hm)
  · intro p hp
    exact reaches_root_of_rank nodes roots0 hpar rank hrank (rank p.1 + 1) p hp
      (Nat.lt_succ_self _)
  · intro p hp hr
    obtain ⟨n, sp⟩ := p
    obtain ⟨q, t, hnp⟩ := hnonroot_some (n, sp) hp hr
    simp only at hnp
    have hpq : primary_parent_of sp = some q := by simp [primary_parent_of, hnp]
    refine ⟨q, mem_tree_children.mpr ⟨sp, hp, hpq⟩, ?_⟩
    intro q' hq'
    obtain ⟨sp', hm', hp'⟩ := mem_tree_children.mp hq'
    have he : sp' = sp := nodup_keys_eq hkeys hm' hp
    rw [he] at hp'
    exact Option.some.inj (hp'.symm.trans hpq)
  · intro p hp hr q hq
    obtain ⟨n, sp⟩ := p
    obtain ⟨sp', hm', hp'⟩ := mem_tree_children.mp hq
    have he : sp' = sp := nodup_keys_eq hkeys hm' hp
    rw [he] at hp'
    have h0 := hroot_none (n, sp) hp hr
    simp only at h0
    rw [hp'] at h0
    exact Option.noConfusion h0

/-- Witness for C7: on the three-node topology with root "0", node "1" under
"0" and node "2" under both, the forest conclusions all hold with the rank
certificate 0, 1, 2. -/
theorem c7_spanning_forest_witness :
    (∀ p ∈ c7_nodes, p.1 ∉ roots_set c7_nodes ["0"] →
      ∃ q, primary_parent_of p.2 = some q ∧ q ∈ node_norm_parents p.2 ∧
        ∀ q' ∈ node_norm_parents p.2, strLtB q' q = false) ∧
    (∀ p ∈ c7_nodes, ReachesRoot c7_nodes ["0"] p.1) ∧
    (∀ p ∈ c7_nodes, p.1 ∉ roots_set c7_nodes ["0"] →
      ∃! q : String, p.1 ∈ tree_children c7_nodes q) ∧
    (∀ p ∈ c7_nodes, p.1 ∈ roots_set c7_nodes ["0"] →
      ∀ q, p.1 ∉ tree_children c7_nodes q) :=
  c7_spanning_forest c7_nodes ["0"] (by decide) (by decide) (by decide)
    (fun n => if n = "1" then 1 else if n = "2" then 2 else 0) (by decide)
